import Mathlib

/-!
Verification of the qobuz-dl download-orchestration engine.

The definitions below are a shallow embedding, translated from the Python
sources (`qobuz_dl/qopy.py`, `qobuz_dl/downloader.py`, `qobuz_dl/core.py`,
`qobuz_dl/utils.py`).  Network transport, the `pathvalidate` sanitizers and
the external tagger are modelled as oracles/abstract collaborators, exactly
as the specification scopes them out; everything else is translated
operation for operation.
-/

set_option maxRecDepth 1000000

namespace QobuzDL

/-! ## MD5 (as used by `hashlib.md5(...).hexdigest()` in `qopy.py`)

A complete executable MD5 over byte lists, with 32-bit words represented as
`Nat` reduced modulo `2^32`. -/

/-- Truncate to a 32-bit word. -/
def w32 (x : Nat) : Nat := x % 4294967296

/-- 32-bit addition. -/
def wadd (a b : Nat) : Nat := (a + b) % 4294967296

/-- 32-bit bitwise complement (operands are kept below `2^32`). -/
def wnot (a : Nat) : Nat := Nat.xor a 4294967295

/-- 32-bit left rotation. -/
def rotl (x n : Nat) : Nat := ((x <<< n) % 4294967296) ||| (x >>> (32 - n))

/-- The 64 MD5 sine-derived round constants. -/
def md5K : List Nat :=
  [0xd76aa478, 0xe8c7b756, 0x242070db, 0xc1bdceee,
   0xf57c0faf, 0x4787c62a, 0xa8304613, 0xfd469501,
   0x698098d8, 0x8b44f7af, 0xffff5bb1, 0x895cd7be,
   0x6b901122, 0xfd987193, 0xa679438e, 0x49b40821,
   0xf61e2562, 0xc040b340, 0x265e5a51, 0xe9b6c7aa,
   0xd62f105d, 0x02441453, 0xd8a1e681, 0xe7d3fbc8,
   0x21e1cde6, 0xc33707d6, 0xf4d50d87, 0x455a14ed,
   0xa9e3e905, 0xfcefa3f8, 0x676f02d9, 0x8d2a4c8a,
   0xfffa3942, 0x8771f681, 0x6d9d6122, 0xfde5380c,
   0xa4beea44, 0x4bdecfa9, 0xf6bb4b60, 0xbebfbc70,
   0x289b7ec6, 0xeaa127fa, 0xd4ef3085, 0x04881d05,
   0xd9d4d039, 0xe6db99e5, 0x1fa27cf8, 0xc4ac5665,
   0xf4292244, 0x432aff97, 0xab9423a7, 0xfc93a039,
   0x655b59c3, 0x8f0ccc92, 0xffeff47d, 0x85845dd1,
   0x6fa87e4f, 0xfe2ce6e0, 0xa3014314, 0x4e0811a1,
   0xf7537e82, 0xbd3af235, 0x2ad7d2bb, 0xeb86d391]

/-- The MD5 per-round rotation amounts. -/
def md5S : List Nat :=
  [7, 12, 17, 22, 7, 12, 17, 22, 7, 12, 17, 22, 7, 12, 17, 22,
   5, 9, 14, 20, 5, 9, 14, 20, 5, 9, 14, 20, 5, 9, 14, 20,
   4, 11, 16, 23, 4, 11, 16, 23, 4, 11, 16, 23, 4, 11, 16, 23,
   6, 10, 15, 21, 6, 10, 15, 21, 6, 10, 15, 21, 6, 10, 15, 21]

/-- One MD5 round on state `(a, b, c, d)` with message words `M`. -/
def md5Round (M : List Nat) (st : Nat × Nat × Nat × Nat) (i : Nat) :
    Nat × Nat × Nat × Nat :=
  let a := st.1
  let b := st.2.1
  let c := st.2.2.1
  let d := st.2.2.2
  let fg : Nat × Nat :=
    if i < 16 then ((b &&& c) ||| (wnot b &&& d), i)
    else if i < 32 then ((b &&& d) ||| (c &&& wnot d), (5 * i + 1) % 16)
    else if i < 48 then (Nat.xor b (Nat.xor c d), (3 * i + 5) % 16)
    else (Nat.xor c (b ||| wnot d), (7 * i) % 16)
  let tmp := (fg.1 + a + md5K.getD i 0 + M.getD fg.2 0) % 4294967296
  (d, wadd b (rotl tmp (md5S.getD i 0)), b, c)

/-- Process one 16-word block, adding the result to the chaining state. -/
def md5Block (st : Nat × Nat × Nat × Nat) (M : List Nat) :
    Nat × Nat × Nat × Nat :=
  let r := (List.range 64).foldl (md5Round M) st
  (wadd st.1 r.1, wadd st.2.1 r.2.1, wadd st.2.2.1 r.2.2.1, wadd st.2.2.2 r.2.2.2)

/-- Little-endian byte serialization of `x` on `k` bytes. -/
def leBytes : Nat → Nat → List Nat
  | 0, _ => []
  | k + 1, x => (x % 256) :: leBytes k (x / 256)

/-- MD5 padding: `0x80`, zeros to 56 mod 64, then the 64-bit bit length. -/
def md5Pad (msg : List Nat) : List Nat :=
  let len := msg.length
  let zeros := (64 + 56 - ((len + 1) % 64)) % 64
  msg ++ [0x80] ++ List.replicate zeros 0 ++ leBytes 8 ((len * 8) % 18446744073709551616)

/-- Group bytes into little-endian 32-bit words. -/
def bytesToWords : List Nat → List Nat
  | b0 :: b1 :: b2 :: b3 :: rest =>
      (b0 + 256 * (b1 + 256 * (b2 + 256 * b3))) :: bytesToWords rest
  | _ => []

/-- Split a word list into 16-word blocks. -/
def wordsToBlocks : List Nat → List (List Nat)
  | w0 :: w1 :: w2 :: w3 :: w4 :: w5 :: w6 :: w7 ::
    w8 :: w9 :: w10 :: w11 :: w12 :: w13 :: w14 :: w15 :: rest =>
      [w0, w1, w2, w3, w4, w5, w6, w7, w8, w9, w10, w11, w12, w13, w14, w15] ::
        wordsToBlocks rest
  | _ => []

/-- The 16-byte MD5 digest of a byte list. -/
def md5Bytes (msg : List Nat) : List Nat :=
  let blocks := wordsToBlocks (bytesToWords (md5Pad msg))
  let st := blocks.foldl md5Block
    (0x67452301, 0xefcdab89, 0x98badcfe, 0x10325476)
  leBytes 4 st.1 ++ leBytes 4 st.2.1 ++ leBytes 4 st.2.2.1 ++ leBytes 4 st.2.2.2

/-- Lowercase hexadecimal digit characters. -/
def hexDigits : List Char := "0123456789abcdef".data

/-- The lowercase hex digit for a nibble. -/
def hexDigit (n : Nat) : Char := hexDigits.getD n '0'

/-- Two lowercase hex characters per byte. -/
def hexCat : List Nat → List Char
  | [] => []
  | b :: t => hexDigit (b / 16) :: hexDigit (b % 16) :: hexCat t

/-- UTF-8 encoding of one character (as `str.encode("utf-8")` does). -/
def charUtf8 (c : Char) : List Nat :=
  let n := c.toNat
  if n < 128 then [n]
  else if n < 2048 then [192 ||| (n >>> 6), 128 ||| (n &&& 63)]
  else if n < 65536 then
    [224 ||| (n >>> 12), 128 ||| ((n >>> 6) &&& 63), 128 ||| (n &&& 63)]
  else
    [240 ||| (n >>> 18), 128 ||| ((n >>> 12) &&& 63),
     128 ||| ((n >>> 6) &&& 63), 128 ||| (n &&& 63)]

/-- UTF-8 encoding of a character list. -/
def charsUtf8 : List Char → List Nat
  | [] => []
  | c :: t => charUtf8 c ++ charsUtf8 t

/-- UTF-8 bytes of a string. -/
def utf8Bytes (s : String) : List Nat := charsUtf8 s.data

/-- `hashlib.md5(s.encode("utf-8")).hexdigest()`: the lowercase hex MD5 digest. -/
def md5Hex (s : String) : String := ⟨hexCat (md5Bytes (utf8Bytes s))⟩

/-! ## `qopy.Client` : signed request building, secret validation, pagination -/

/-- The exception taxonomy of `qobuz_dl/exceptions.py`, plus the transport and
Python-level errors (`aiohttp.ClientError`, `KeyError`, `IndexError`) that the
code catches or lets propagate. -/
inductive ApiError
  | authentication
  | ineligible
  | invalidAppId
  | invalidAppSecret
  | invalidQuality
  | nonStreamable
  | clientError
  | keyError
  | indexError
deriving DecidableEq, Repr

deriving instance DecidableEq for Except

/-- The exact signed string of `Client._prepare_file_url_params`:
`f"trackgetFileUrlformat_id{fmt_id}intentstreamtrack_id{track_id}{unix_ts}{secret}"`. -/
def sigStr (fmt trackId ts : Nat) (secret : String) : String :=
  "trackgetFileUrlformat_id" ++ toString fmt ++ "intentstreamtrack_id" ++
    toString trackId ++ toString ts ++ secret

/-- The parameter dictionary returned by `Client._prepare_file_url_params`. -/
structure FileUrlParams where
  request_ts : Nat
  request_sig : String
  track_id : Nat
  format_id : Nat
  intent : String
deriving DecidableEq, Repr

/-- `Client._prepare_file_url_params`: validates the quality id against
`(5, 6, 7, 27)` and builds the signed parameter set.  The current unix
timestamp is an explicit argument `ts`. -/
def prepare_file_url_params (fmt trackId ts : Nat) (secret : String) :
    Except ApiError FileUrlParams :=
  if fmt ∈ [5, 6, 7, 27] then
    Except.ok
      { request_ts := ts
        request_sig := md5Hex (sigStr fmt trackId ts secret)
        track_id := trackId
        format_id := fmt
        intent := "stream" }
  else
    Except.error ApiError.invalidQuality

/-- One signed probe call issued by `Client.test_secret`:
`api_call("track/getFileUrl", id=5966783, fmt_id=5, sec=sec)`. -/
structure Probe where
  secret : String
  track_id : Nat
  fmt_id : Nat
deriving DecidableEq, Repr

/-- `Client.test_secret sec`: issues one probe for `sec` against track id
5966783 at quality 5; the oracle `probe` abstracts whether the remote call
succeeds (`False` on `InvalidAppSecretError`/`aiohttp.ClientError`). -/
def test_secret (probe : String → Bool) (sec : String) : Bool × List Probe :=
  (probe sec, [{ secret := sec, track_id := 5966783, fmt_id := 5 }])

/-- The `for secret in self.secrets` loop of `Client.cfg_setup`: skips falsy
(empty) candidates without probing, probes the rest in order, and stops at the
first success.  Returns the secret found (if any) and the probes issued. -/
def cfg_loop (probe : String → Bool) : List String → Option String × List Probe
  | [] => (none, [])
  | s :: rest =>
    if s = "" then cfg_loop probe rest
    else
      let t := test_secret probe s
      if t.1 then (some s, t.2)
      else
        let r := cfg_loop probe rest
        (r.1, t.2 ++ r.2)

/-- `Client.cfg_setup`: memoized on `self.sec`; on a cache miss it runs the
trial loop and raises `InvalidAppSecretError` when nothing validated.
Returns the new value of `self.sec` and the probes issued. -/
def cfg_setup (probe : String → Bool) (sec : Option String)
    (secrets : List String) : Except ApiError String × List Probe :=
  match sec with
  | some s => (Except.ok s, [])
  | none =>
    let r := cfg_loop probe secrets
    match r.1 with
    | some s => (Except.ok s, r.2)
    | none => (Except.error ApiError.invalidAppSecret, r.2)

/-- What a paginated endpoint reports at a given offset:
`len(response[item_key]["items"])` and `response.get(count_key, 0)`. -/
structure Page where
  items : Nat
  total : Nat
deriving DecidableEq, Repr

/-- One request issued by the pagination loop. -/
structure PageRequest where
  offset : Nat
  limit : Nat
deriving DecidableEq, Repr

/-- `Client._yield_paginated`, shared by `get_artist_meta`, `get_plist_meta`
and `get_label_meta`: requests `offset, limit=500` pages, breaking when a page
is empty or `offset + items_in_response >= total_items`.  `resp` maps an
offset to the page the endpoint returns there; `fuel` bounds the number of
loop iterations (the Python `while True` loop).  Returns the requests issued,
in order. -/
def yield_paginated (resp : Nat → Page) : Nat → Nat → List PageRequest
  | 0, _ => []
  | fuel + 1, offset =>
    let p := resp offset
    { offset := offset, limit := 500 } ::
      (if p.items = 0 ∨ p.total ≤ offset + p.items then []
       else yield_paginated resp fuel (offset + p.items))

/-! ## `utils.smart_discography_filter` -/

/-- The album fields the discography filter reads.  `maximum_sampling_rate`
is a kHz value such as `44.1`, modelled as a rational. -/
structure Album where
  title : String
  version : Option String
  artist_name : String
  maximum_bit_depth : Nat
  maximum_sampling_rate : ℚ
deriving DecidableEq, Repr

/-- Case-folded character list of a string (ASCII case folding, which covers
the patterns the filter uses). -/
def lcChars (s : String) : List Char := s.data.map Char.toLower

/-- Does the first list start the second? -/
def startsWithChars : List Char → List Char → Bool
  | [], _ => true
  | _ :: _, [] => false
  | n :: ns, h :: hs => n == h && startsWithChars ns hs

/-- Substring search on character lists. -/
def hasSubstrChars (needle : List Char) : List Char → Bool
  | [] => needle.isEmpty
  | h :: t => startsWithChars needle (h :: t) || hasSubstrChars needle t

/-- Case-insensitive substring test, the semantics of `re.search` for the
filter's alternation patterns. -/
def containsCI (hay needle : String) : Bool :=
  hasSubstrChars (lcChars needle) (lcChars hay)

/-- The text `is_type` matches against:
`f"{album.get('title', '')} {album.get('version', '')}"`.  (A JSON-null
version renders as `"None"` in Python; neither `""` nor `"None"` contains any
of the keywords, so the match outcome is identical.) -/
def albumTypeText (a : Album) : String := a.title ++ " " ++ a.version.getD ""

/-- `is_type(album, "remaster")`: `(?i)(re)?master(ed)?` finds a match iff
the text contains `"master"` case-insensitively (both groups are optional). -/
def is_type_remaster (a : Album) : Bool := containsCI (albumTypeText a) "master"

/-- The alternatives of the `extra` pattern. -/
def extraWords : List String :=
  ["anniversary", "deluxe", "live", "collector", "demo", "expanded", "remix",
   "acoustic", "instrumental"]

/-- `is_type(album, "extra")`. -/
def is_type_extra (a : Album) : Bool :=
  extraWords.any fun word => containsCI (albumTypeText a) word

/-- `get_base_title`: `re.match(r"([^\(]+)(?:\s*[\(\[][^)]*[\)\]])*", title)`.
The greedy `[^(]+` group captures the maximal parenthesis-free leading run
(the trailing group can always match empty), so on a match the base title is
that run, stripped and case-folded; when the regex cannot match (empty title
or a leading `(`) the whole title is case-folded. -/
def pyLower (s : String) : String := String.mk (s.data.map Char.toLower)

/-- `str.strip()` on the whitespace the titles can carry. -/
def trimChars (l : List Char) : List Char :=
  ((l.dropWhile Char.isWhitespace).reverse.dropWhile Char.isWhitespace).reverse

def get_base_title (a : Album) : String :=
  match a.title.data with
  | [] => pyLower a.title
  | c :: _ =>
    if c = '(' then pyLower a.title
    else pyLower
      (String.mk (trimChars (a.title.data.takeWhile fun ch => ch ≠ '(')))

/-- Append an album to its title group, preserving the insertion order of a
Python dict. -/
def addToGroups (groups : List (String × List Album)) (k : String) (a : Album) :
    List (String × List Album) :=
  match groups with
  | [] => [(k, [a])]
  | (k2, as) :: rest =>
    if k2 = k then (k2, as ++ [a]) :: rest
    else (k2, as) :: addToGroups rest k a

/-- Step 1 of the filter: group by base title, dropping albums whose credited
artist is not the requested artist. -/
def titleGroups (requested : String) (items : List Album) :
    List (String × List Album) :=
  items.foldl
    (fun gs item =>
      if item.artist_name ≠ requested then gs
      else addToGroups gs (get_base_title item) item)
    []

/-- `max(...)` over a nonempty list, Python style (the empty case never
arises: groups are nonempty by construction). -/
def natMaxOf : List Nat → Nat
  | [] => 0
  | x :: xs => xs.foldl max x

/-- `max(...)` over rationals. -/
def ratMaxOf : List ℚ → ℚ
  | [] => 0
  | x :: xs => xs.foldl max x

/-- `min(...)` over rationals. -/
def ratMinOf : List ℚ → ℚ
  | [] => 0
  | x :: xs => xs.foldl min x

/-- Step 2 of the filter, for one title group: the surviving candidate list
in album order. -/
def groupCandidates (save_space skip_extras : Bool) (albums : List Album) :
    List Album :=
  let best_bit_depth := natMaxOf (albums.map (·.maximum_bit_depth))
  let relevant := albums.filter fun a =>
    decide (a.maximum_bit_depth = best_bit_depth)
  let best_sampling_rate :=
    if save_space then ratMinOf (relevant.map (·.maximum_sampling_rate))
    else ratMaxOf (relevant.map (·.maximum_sampling_rate))
  let remaster_exists := albums.any is_type_remaster
  albums.filter fun album =>
    decide (album.maximum_bit_depth = best_bit_depth) &&
    decide (album.maximum_sampling_rate = best_sampling_rate) &&
    !(remaster_exists && !is_type_remaster album) &&
    !(skip_extras && is_type_extra album)

/-- `utils.smart_discography_filter`: group, pick each group's first
surviving candidate (`candidates[0]`), keep group order. -/
def smart_discography_filter (items : List Album)
    (save_space skip_extras : Bool) : List Album :=
  match items with
  | [] => []
  | first :: _ =>
    (titleGroups first.artist_name items).filterMap fun g =>
      (groupCandidates save_space skip_extras g.2).head?

/-! ## `downloader._format_template_string`: the path-template language -/

/-- A template variable value: the dictionary built by `_get_template_vars`
holds strings and ints. -/
inductive TVal
  | str (s : String)
  | int (n : Int)
deriving DecidableEq, Repr

/-- Python truthiness of a template value (`if variables.get(key):`). -/
def TVal.truthy : TVal → Bool
  | .str s => s != ""
  | .int n => n != 0

/-- `str(value)`, as `str.format` renders a plain replacement field. -/
def TVal.toStr : TVal → String
  | .str s => s
  | .int n => toString n

/-- A variable map (`variables.get`). -/
def Vars := String → Option TVal

/-- `\w` on the keys the templates use. -/
def isWordChar (c : Char) : Bool := c.isAlphanum || c = '_'

/-- Attempt to match `%\{\?(\w+),([^|]*?)\|([^}]*?)\}` at the head of the
character list; on success return the key, both literals, and the rest of
the input after the closing brace. -/
def tryCond (l : List Char) :
    Option (String × List Char × List Char × List Char) :=
  match l with
  | c1 :: c2 :: c3 :: rest =>
    if c1 = '%' ∧ c2 = '\x7b' ∧ c3 = '?' then
      let key := rest.takeWhile isWordChar
      match rest.drop key.length with
      | ',' :: r2 =>
        if key.isEmpty then none
        else
          let tv := r2.takeWhile fun c => c ≠ '|'
          match r2.drop tv.length with
          | '|' :: r4 =>
            let fv := r4.takeWhile fun c => c ≠ '\x7d'
            match r4.drop fv.length with
            | '\x7d' :: r6 => some (String.mk key, tv, fv, r6)
            | _ => none
          | _ => none
      | _ => none
    else none
  | _ => none

/-- `conditional_pattern.sub(replacer, template)`: scan left to right, replace
each non-overlapping match by the branch selected by the flag's truthiness
(replacements are not rescanned), copy everything else.  `fuel` bounds the
scan; any `fuel ≥ l.length` gives the total behavior. -/
def condSubAux (vars : Vars) : Nat → List Char → List Char
  | 0, l => l
  | _, [] => []
  | fuel + 1, c :: t =>
    match tryCond (c :: t) with
    | some (key, tv, fv, rest) =>
      (if (vars key).elim false TVal.truthy then tv else fv) ++
        condSubAux vars fuel rest
    | none => c :: condSubAux vars fuel t

/-- The conditional pass over a whole template string. -/
def condSub (vars : Vars) (template : String) : List Char :=
  condSubAux vars template.data.length template.data

/-- `str.format(**variables)` on the processed template (the fragment of the
format language the templates use: literal text, `\x7b\x7b`/`\x7d\x7d`
escapes, and plain `\x7bname\x7d` fields).  An unknown field name is a
`KeyError`, a stray brace a `ValueError`; both are modelled as `none`. -/
def pyFormatAux (vars : Vars) : Nat → List Char → Option (List Char)
  | 0, l => some l
  | _, [] => some []
  | fuel + 1, '\x7b' :: '\x7b' :: rest =>
    (pyFormatAux vars fuel rest).map fun r => '\x7b' :: r
  | fuel + 1, '\x7d' :: '\x7d' :: rest =>
    (pyFormatAux vars fuel rest).map fun r => '\x7d' :: r
  | fuel + 1, '\x7b' :: rest =>
    let name := rest.takeWhile fun c => c ≠ '\x7d'
    match rest.drop name.length with
    | '\x7d' :: r2 =>
      match vars (String.mk name) with
      | some v => (pyFormatAux vars fuel r2).map fun r => v.toStr.data ++ r
      | none => none
    | _ => none
  | _ + 1, '\x7d' :: _ => none
  | fuel + 1, c :: rest => (pyFormatAux vars fuel rest).map fun r => c :: r

/-- `Download._format_template_string`: the conditional pass, then
`str.format` substitution. -/
def format_template_string (vars : Vars) (template : String) : Option String :=
  let processed := condSub vars template
  (pyFormatAux vars processed.length processed).map String.mk

/-! ## The download world: statistics, archive, filesystem, network log -/

/-- `core.DownloadStats` (counters only; the processed-titles set is not
needed by any claim below). -/
structure Stats where
  tracks_downloaded : Nat
  tracks_skipped_archive : Nat
  tracks_skipped_exists : Nat
  tracks_failed : Nat
  total_size_downloaded : Nat
deriving DecidableEq, Repr

/-- The mutable state the downloader touches: the statistics, the archive
(in-memory id set and on-disk line list), the filesystem, the output-dir set,
and logs of the network requests issued (`fetches`: GET byte downloads;
`head_requests`: `_get_content_length` size probes). -/
structure World where
  stats : Stats
  archive_mem : List String
  archive_file : List String
  files : List String
  output_dirs : List String
  fetches : List String
  head_requests : List String
deriving DecidableEq, Repr

/-- `QobuzDL.is_in_archive`: membership of `str(track_id)` in the in-memory
set. -/
def is_in_archive (w : World) (track_id : Nat) : Bool :=
  w.archive_mem.contains (toString track_id)

/-- `QobuzDL.add_to_archive`: a no-op under dry-run or with archiving off;
otherwise appends the id line to the file and adds it to the in-memory set,
unless already present. -/
def add_to_archive (dry_run download_archive : Bool) (w : World)
    (track_id : Nat) : World :=
  if dry_run || !download_archive then w
  else
    let s := toString track_id
    if w.archive_mem.contains s then w
    else { w with
           archive_file := w.archive_file ++ [s]
           archive_mem := w.archive_mem ++ [s] }

/-- `QobuzDL._load_archive`: the in-memory set of a fresh session is the set
of (stripped) lines of the persisted archive file. -/
def load_archive (fileLines : List String) : List String := fileLines

/-- The settings of a `Download` instance (`downloader.Download.__init__`).
The `pathvalidate` sanitizers are abstract collaborators. -/
structure DlConfig where
  quality : Nat
  path : String
  output_template : String
  albums_only : Bool
  embed_art : Bool
  downgrade_quality : Bool
  cover_og_quality : Bool
  no_cover : Bool
  dry_run : Bool
  use_archive : Bool
  sanitize_fname : String → String
  sanitize_fpath : String → String

/-- The fields of a `track/getFileUrl` response (`track_url_dict`) that the
downloader reads.  `restrictions` holds each entry's `code`; `sample` is the
presence of the `"sample"` key. -/
structure UrlDict where
  url : Option String
  size : Option Nat
  url_size : Option Nat
  sampling_rate : Option ℚ
  bit_depth : Option Nat
  restrictions : List (Option String)
  sample : Bool
  track_id : Option Nat
deriving DecidableEq, Repr

/-- The album-level metadata fields read by `_get_template_vars` and
`_download_and_tag` (the `effective_album_meta` view). -/
structure AlbumInfo where
  artist_name : Option String
  title : String
  version : String
  release_date_original : Option String
  label_name : Option String
  upc : String
  media_count : Nat
  copyright : String
  genre_name : Option String
  release_type : Option String
  image_large : Option String
  goodies_pdf : Option String
deriving DecidableEq, Repr

/-- The track-level metadata fields the downloader reads.  `album` is the
`"album"` subtree a `track/get` response carries. -/
structure TrackMeta where
  id : Nat
  title : String
  version : Option String
  track_number : Nat
  media_number : Nat
  performer_name : Option String
  composer_name : Option String
  work_name : Option String
  isrc : String
  album : Option AlbumInfo
deriving DecidableEq, Repr

/-- Full album metadata (an `album/get` response). -/
structure AlbumMeta where
  info : AlbumInfo
  streamable : Bool
  tracks : List TrackMeta
deriving DecidableEq, Repr

/-- `album_or_track_metadata`: an album tree (album flow) or a track tree
(single-track flow). -/
inductive AOTMeta
  | albumM (a : AlbumMeta)
  | trackM (t : TrackMeta)
deriving DecidableEq, Repr

/-- The album-shaped view of a track dict, for the (never exercised in
practice) case of a track response without an `"album"` subtree: shared keys
keep the track's values, the rest fall back to the `.get` defaults. -/
def trackAsAlbumInfo (tm : TrackMeta) : AlbumInfo :=
  { artist_name := none, title := tm.title, version := tm.version.getD ""
    release_date_original := none, label_name := none, upc := ""
    media_count := 1, copyright := "", genre_name := none, release_type := none
    image_large := none, goodies_pdf := none }

/-- `album_or_track_metadata.get("album", album_or_track_metadata)`. -/
def effectiveInfo : AOTMeta → AlbumInfo
  | .albumM a => a.info
  | .trackM t => t.album.getD (trackAsAlbumInfo t)

/-- `downloader._get_title`: append the version in parentheses unless it is
falsy or already part of the title (case-insensitively). -/
def get_title (title : String) (version : Option String) : String :=
  match version with
  | none => title
  | some v =>
    if v = "" then title
    else if containsCI title v then title
    else title ++ " (" ++ v ++ ")"

/-- Python `a or b` over optional strings (`None` and `""` are falsy). -/
def pyOrStr (a b : Option String) : Option String :=
  match a with
  | some s => if s = "" then b else some s
  | none => b

/-- `f"{n:02}"`. -/
def pad2 (n : Nat) : String :=
  if n < 10 then "0" ++ toString n else toString n

/-- `str(...).split("-")[0]` applied to the release date (default `"0"`). -/
def yearOf (d : Option String) : String :=
  match d with
  | none => "0"
  | some s => String.mk (s.data.takeWhile fun c => c ≠ '-')

/-- `Download._get_template_vars`: the variable dictionary for path
formatting. -/
def template_vars (cfg : DlConfig) (tm : TrackMeta) (eff : AlbumInfo)
    (ud : UrlDict) : Vars := fun k =>
  let artist := (pyOrStr tm.performer_name eff.artist_name).getD ""
  if k = "tracknumber" then some (.str (pad2 tm.track_number))
  else if k = "tracktitle" then
    some (.str (cfg.sanitize_fname (get_title tm.title tm.version)))
  else if k = "artist" then some (.str (cfg.sanitize_fname artist))
  else if k = "albumartist" then
    some (.str (cfg.sanitize_fname (eff.artist_name.getD "")))
  else if k = "album" then some (.str (cfg.sanitize_fname eff.title))
  else if k = "year" then some (.str (yearOf eff.release_date_original))
  else if k = "release_date" then
    some (.str (eff.release_date_original.getD ""))
  else if k = "label" then
    some (.str (cfg.sanitize_fname (eff.label_name.getD "")))
  else if k = "upc" then some (.str eff.upc)
  else if k = "isrc" then some (.str tm.isrc)
  else if k = "bit_depth" then some (.int (ud.bit_depth.getD 0))
  else if k = "sampling_rate" then
    some (.int ⌊ud.sampling_rate.getD 0 / 1000⌋)
  else if k = "ext" then some (.str (if cfg.quality = 5 then "mp3" else "flac"))
  else if k = "composer" then
    some (.str (cfg.sanitize_fname (tm.composer_name.getD "")))
  else if k = "release_type" then some (.str (eff.release_type.getD "album"))
  else if k = "media_number" then some (.str (pad2 tm.media_number))
  else if k = "media_count" then some (.int eff.media_count)
  else if k = "work" then
    some (.str (cfg.sanitize_fname (tm.work_name.getD "")))
  else if k = "version" then some (.str (cfg.sanitize_fname eff.version))
  else if k = "copyright" then some (.str eff.copyright)
  else if k = "genre" then some (.str (eff.genre_name.getD ""))
  else if k = "is_multidisc" then
    some (.int (if 1 < eff.media_count then 1 else 0))
  else none

/-- `os.path.join` for one component (POSIX separator). -/
def pathJoin (d n : String) : String :=
  if d = "" then n else d ++ "/" ++ n

/-- Split a character list at `'/'` separators. -/
def splitSlash : List Char → List (List Char)
  | [] => [[]]
  | c :: t =>
    match splitSlash t with
    | [] => [[]]
    | h :: r => if c = '/' then [] :: h :: r else (c :: h) :: r

/-- Re-join path components with `'/'`. -/
def joinSlash : List (List Char) → List Char
  | [] => []
  | [x] => x
  | x :: xs => x ++ '/' :: joinSlash xs

/-- `os.path.dirname` (POSIX, relative paths). -/
def dirnameOf (p : String) : String :=
  match splitSlash p.data with
  | [] => ""
  | [_] => ""
  | parts => String.mk (joinSlash parts.dropLast)

/-- `downloader._download_file`: skip if the target exists, otherwise GET the
(possibly `_org.`-rewritten) URL; on transport failure the partial file is
removed.  The oracle `ok` decides the transport outcome; returns the success
flag and the new world. -/
def download_file (w : World) (url fname : String) (og_quality ok : Bool) :
    Bool × World :=
  let u := if og_quality then url.replace "_600." "_org." else url
  if w.files.contains fname then (true, w)
  else if ok then
    (true, { w with fetches := w.fetches ++ [u], files := w.files ++ [fname] })
  else
    (false, { w with fetches := w.fetches ++ [u] })

/-- The transport/tagging outcomes one `_download_and_tag` run can observe. -/
structure NetEvents where
  cover_ok : Bool
  booklet_ok : Bool
  audio_ok : Bool
  tag_ok : Bool
deriving DecidableEq, Repr

/-- The per-directory side assets of `_download_and_tag` (lines 378-389):
the optional cover-art fetch and the optional booklet fetch, each
best-effort.  (The source passes `booklet_path` for both the url and the
file name of the booklet call.) -/
def side_assets (cfg : DlConfig) (w : World) (eff : AlbumInfo)
    (final_dir : String) (cover_ok booklet_ok : Bool) : World :=
  let w :=
    if !cfg.no_cover then
      match eff.image_large with
      | some image_url =>
        (download_file w image_url (pathJoin final_dir "cover.jpg")
          cfg.cover_og_quality cover_ok).2
      | none => w
    else w
  match eff.goodies_pdf with
  | some burl =>
    if burl.endsWith ".pdf" then
      (download_file w (pathJoin final_dir "booklet.pdf")
        (pathJoin final_dir "booklet.pdf") false booklet_ok).2
    else w
  | none => w

/-- Insertion into a Python set, modelled order-preservingly. -/
def addDistinct (l : List String) (s : String) : List String :=
  if l.contains s then l else l ++ [s]

/-- `downloader.QL_DOWNGRADE`. -/
def QL_DOWNGRADE : String := "FormatRestrictedByFormatAvailability"

/-- `Download._get_format`: quality 5 short-circuits to MP3 with
`quality_met = True`; otherwise the (given or freshly fetched) descriptor is
classified: `quality_met` is cleared iff a restriction carries the
`QL_DOWNGRADE` code; a `KeyError`/`aiohttp.ClientError` during the fetch
gives `("Unknown", False, None, None)`. -/
def get_format (cfg : DlConfig) (fetched : Except ApiError UrlDict) :
    String × Bool × Option Nat × Option ℚ :=
  if cfg.quality = 5 then ("MP3", true, none, none)
  else
    match fetched with
    | .ok d =>
      ("FLAC", !(d.restrictions.any fun c => c == some QL_DOWNGRADE),
       d.bit_depth, d.sampling_rate)
    | .error _ => ("Unknown", false, none, none)

/-- `Download._download_and_tag`.  `aot` is the `album_or_track_metadata`
argument, `ev` the transport/tagging outcomes.  A formatting `KeyError`
(unknown placeholder) escapes as an error; every other path returns the new
world. -/
def download_and_tag (cfg : DlConfig) (w : World) (tm : TrackMeta)
    (ud : UrlDict) (aot : AOTMeta) (ev : NetEvents) :
    Except ApiError World :=
  let track_size := ud.size.getD 0
  let track_id := tm.id
  if cfg.use_archive && is_in_archive w track_id then .ok w
  else
    let eff := effectiveInfo aot
    match format_template_string (template_vars cfg tm eff ud)
        cfg.output_template with
    | none => .error .keyError
    | some final_file_path =>
      let final_file := cfg.sanitize_fpath final_file_path
      let dir0 := dirnameOf final_file
      let final_dir := if dir0 = "" then cfg.path else dir0
      let w := { w with output_dirs := addDistinct w.output_dirs final_dir }
      if cfg.dry_run then
        .ok { w with stats.tracks_downloaded := w.stats.tracks_downloaded + 1 }
      else if w.files.contains final_file then
        let w :=
          { w with stats.tracks_skipped_exists :=
              w.stats.tracks_skipped_exists + 1 }
        .ok (if cfg.use_archive then
              add_to_archive cfg.dry_run cfg.use_archive w track_id
            else w)
      else
        match ud.url with
        | none => .ok { w with stats.tracks_failed := w.stats.tracks_failed + 1 }
        | some url =>
          let w := side_assets cfg w eff final_dir ev.cover_ok ev.booklet_ok
          let temp_file := pathJoin final_dir ("." ++ toString track_id ++ ".tmp")
          let r := download_file w url temp_file false ev.audio_ok
          let w := r.2
          if !r.1 then
            .ok { w with stats.tracks_failed := w.stats.tracks_failed + 1 }
          else if ev.tag_ok then
            -- the tagger writes the tags and renames temp_file to final_file
            let w := { w with files := w.files.erase temp_file ++ [final_file] }
            let w :=
              if cfg.use_archive then
                add_to_archive cfg.dry_run cfg.use_archive w track_id
              else w
            .ok { w with
                  stats.tracks_downloaded := w.stats.tracks_downloaded + 1
                  stats.total_size_downloaded :=
                    w.stats.total_size_downloaded + track_size }
          else
            .ok { w with stats.tracks_failed := w.stats.tracks_failed + 1 }

/-- `Download.download_track`.  `meta` is the `track/get` response, `parse`
the outcome of the `track/getFileUrl` call, `has_progress` whether an outer
progress bar was passed (the playlist flow), `headSize` the
`_get_content_length` oracle. -/
def download_track (cfg : DlConfig) (w : World) (meta : TrackMeta)
    (parse : Except ApiError UrlDict) (has_progress : Bool)
    (headSize : String → Nat) (ev : NetEvents) : Except ApiError World :=
  if cfg.use_archive && is_in_archive w meta.id then
    .ok { w with stats.tracks_skipped_archive :=
            w.stats.tracks_skipped_archive + 1 }
  else
    match parse with
    | .error e => .error e
    | .ok p =>
      if p.sample || p.sampling_rate.getD 0 == 0 then .ok w
      else
        let fmt := get_format cfg (.ok p)
        if !cfg.downgrade_quality && !fmt.2.1 then .ok w
        else
          if has_progress then download_and_tag cfg w meta p (.trackM meta) ev
          else
            -- standalone flow: probe the size for the progress bar, mutating
            -- `parse["size"]` when the API omitted it
            let total_size :=
              match p.size with
              | some n => if n ≠ 0 then n else p.url_size.getD 0
              | none => p.url_size.getD 0
            let pw :=
              if total_size = 0 ∧ p.url.isSome then
                ({ p with size := some (headSize (p.url.getD "")) },
                 { w with head_requests :=
                     w.head_requests ++ [p.url.getD ""] })
              else (p, w)
            download_and_tag cfg pw.2 meta pw.1 (.trackM meta) ev

/-- `asyncio.gather` without `return_exceptions`: the first raised exception
propagates. -/
def gatherExcept : List (Except ApiError UrlDict) →
    Except ApiError (List UrlDict)
  | [] => .ok []
  | .error e :: _ => .error e
  | .ok d :: rest => (gatherExcept rest).map fun l => d :: l

/-- The manual size-fill loop: `for i, size in enumerate(sizes):
parses[i]["size"] = size` (index-aligned with the `parses` list). -/
def applySizes : List UrlDict → List Nat → List UrlDict
  | ps, [] => ps
  | [], _ => []
  | p :: ps, s :: ss => { p with size := some s } :: applySizes ps ss

/-- A prepared track job (`get_album_tracks`'s `job` dict). -/
structure TrackJob where
  track_url_dict : UrlDict
  track_metadata : TrackMeta
  album_meta : AlbumMeta
  is_track : Bool
deriving DecidableEq, Repr

/-- `parse["size"] = parse.get("size") or parse.get("url_size", 0)`. -/
def jobSize (p : UrlDict) : Nat :=
  match p.size with
  | some n => if n ≠ 0 then n else p.url_size.getD 0
  | none => p.url_size.getD 0

/-- The job-building loop of `get_album_tracks`: skip samples, zero/absent
sampling rates, absent track ids, and parses without a matching track meta
(dict lookup: the last metadata entry with the id wins). -/
def buildJobs (meta : AlbumMeta) (track_metas : List TrackMeta) :
    List UrlDict → List TrackJob
  | [] => []
  | p :: rest =>
    let tail := buildJobs meta track_metas rest
    match p.track_id with
    | none => tail
    | some tid =>
      if p.sample || p.sampling_rate.getD 0 == 0 then tail
      else
        match track_metas.reverse.find? fun tm => tm.id = tid with
        | none => tail
        | some tmeta =>
          { track_url_dict := { p with size := some (jobSize p) }
            track_metadata := tmeta
            album_meta := meta
            is_track := false } :: tail

/-- `Download.get_album_tracks`: streamability and release-type gates, the
quality gate, the pre-download archive filter, the `getFileUrl` fan-out, the
manual size probing, and job construction.  Returns the job list and the new
world (`stats`/`head_requests`). -/
def get_album_tracks (cfg : DlConfig) (w : World) (meta : AlbumMeta)
    (getTrackUrl : Nat → Except ApiError UrlDict) (headSize : String → Nat) :
    Except ApiError (List TrackJob × World) :=
  if !meta.streamable then .error .nonStreamable
  else if cfg.albums_only &&
      (!(meta.info.release_type == some "album") ||
        meta.info.artist_name == some "Various Artists") then
    .ok ([], w)
  else if cfg.quality ≠ 5 ∧ meta.tracks = [] then
    -- `item_dict["tracks"]["items"][0]` raises IndexError
    .error .indexError
  else
    let fmt := get_format cfg
      (match meta.tracks with
       | [] => .error .clientError   -- unreachable: guarded above
       | t0 :: _ => getTrackUrl t0.id)
    if !cfg.downgrade_quality && !fmt.2.1 then .ok ([], w)
    else
      let skipIds : List String :=
        if cfg.use_archive then
          ((meta.tracks.filter fun tm => is_in_archive w tm.id).map
            fun tm => toString tm.id).dedup
        else []
      let w :=
        { w with stats.tracks_skipped_archive :=
            w.stats.tracks_skipped_archive + skipIds.length }
      let track_metas :=
        meta.tracks.filter fun tm => !(skipIds.contains (toString tm.id))
      if track_metas = [] then .ok ([], w)
      else
        match gatherExcept (track_metas.map fun tm => getTrackUrl tm.id) with
        | .error e => .error e
        | .ok parses =>
          let noSizes := !(parses.any fun p =>
            !(p.size.getD 0 == 0) || !(p.url_size.getD 0 == 0))
          let withUrl := parses.filter fun p => p.url.isSome
          let pw :=
            if noSizes then
              (applySizes parses (withUrl.map fun p => headSize (p.url.getD "")),
               { w with head_requests :=
                   w.head_requests ++ withUrl.map fun p => p.url.getD "" })
            else (parses, w)
          .ok (buildJobs meta track_metas pw.1, pw.2)

/-! ## The bounded-concurrency scheduler

`QobuzDL._download_album` and `QobuzDL._download_playlist_tracks` wrap every
track job in `download_with_semaphore`, an `async with
asyncio.Semaphore(self.max_workers)` block, and `asyncio.gather` all of them
before declaring the item complete.  Cooperative single-threaded concurrency
is modelled as a small-step transition system: a job acquires a permit to
enter its pipeline, advances through its suspension points, and releases the
permit on exit (normal or exceptional — the release is in the `finally`
position of the `async with`). -/

/-- The status of one track job. -/
inductive JStatus
  | queued
  | inflight (phase : Nat)
  | jobDone
deriving DecidableEq, Repr

/-- The scheduler state: the jobs of one content item, the free permits of
the semaphore, and whether the orchestrator has declared the item complete
(the code after `asyncio.gather`). -/
structure SchedState where
  jobs : List JStatus
  permits : Nat
  completed : Bool
deriving DecidableEq, Repr

/-- Initial state: all jobs queued, `max_workers` free permits. -/
def initSched (max_workers numJobs : Nat) : SchedState :=
  { jobs := List.replicate numJobs .queued, permits := max_workers
    completed := false }

/-- Is a job past its first suspension point and not yet completed? -/
def isInflight : JStatus → Bool
  | .inflight _ => true
  | _ => false

/-- Number of simultaneously in-flight materializations. -/
def inflightCount (s : SchedState) : Nat := s.jobs.countP isInflight

/-- One cooperative step of the semaphore-bounded scheduler. -/
inductive SchedStep : SchedState → SchedState → Prop
  | start (s : SchedState) (i : Nat)
      (h : s.jobs.get? i = some .queued) (hp : 0 < s.permits)
      (hc : s.completed = false) :
      SchedStep s
        { s with jobs := s.jobs.set i (.inflight 0), permits := s.permits - 1 }
  | advance (s : SchedState) (i k : Nat)
      (h : s.jobs.get? i = some (.inflight k)) (hc : s.completed = false) :
      SchedStep s { s with jobs := s.jobs.set i (.inflight (k + 1)) }
  | finish (s : SchedState) (i k : Nat)
      (h : s.jobs.get? i = some (.inflight k)) (hc : s.completed = false) :
      SchedStep s
        { s with jobs := s.jobs.set i .jobDone, permits := s.permits + 1 }
  | complete (s : SchedState)
      (h : ∀ j ∈ s.jobs, j = JStatus.jobDone) (hc : s.completed = false) :
      SchedStep s { s with completed := true }

/-- States reachable by the scheduler for one content item. -/
def SchedReachable (max_workers numJobs : Nat) (s : SchedState) : Prop :=
  Relation.ReflTransGen SchedStep (initSched max_workers numJobs) s

/-- The loop's break condition at offset `o`:
`not items_in_response or (offset + items_in_response) >= total_items`. -/
def stopAt (resp : Nat → Page) (o : Nat) : Prop :=
  (resp o).items = 0 ∨ (resp o).total ≤ o + (resp o).items

instance (resp : Nat → Page) (o : Nat) : Decidable (stopAt resp o) := by
  unfold stopAt; infer_instance

/-- Frame facts about one world-to-world step: everything except `files` and
`fetches` is untouched, and file membership is unchanged away from `excl`. -/
def FrameExcept (f : World → World) (excl : List String) : Prop :=
  ∀ w0 : World,
    (f w0).stats = w0.stats ∧
    (f w0).archive_mem = w0.archive_mem ∧
    (f w0).archive_file = w0.archive_file ∧
    (f w0).output_dirs = w0.output_dirs ∧
    (f w0).head_requests = w0.head_requests ∧
    ∀ g, g ∉ excl → (f w0).files.contains g = w0.files.contains g

/-- The destination directory `_download_and_tag` computes for a rendered
template value `ff`: `os.path.dirname(sanitize_filepath(ff)) or self.path`. -/
def finalDirOf (cfg : DlConfig) (ff : String) : String :=
  if dirnameOf (cfg.sanitize_fpath ff) = "" then cfg.path
  else dirnameOf (cfg.sanitize_fpath ff)

/-- The hidden temporary file name `f".{track_id}.tmp"`. -/
def tempNameOf (tid : Nat) : String := "." ++ toString tid ++ ".tmp"

/-- The world after the side-asset (cover/booklet) steps of
`_download_and_tag`, including the `output_dirs` registration. -/
def preAudioWorld (cfg : DlConfig) (w : World) (tm : TrackMeta)
    (aot : AOTMeta) (ev : NetEvents) (ff : String) : World :=
  side_assets cfg
    { w with output_dirs := addDistinct w.output_dirs (finalDirOf cfg ff) }
    (effectiveInfo aot) (finalDirOf cfg ff) ev.cover_ok ev.booklet_ok

/-! ## Concrete fixtures (used to instantiate the theorems below) -/

/-- An empty download world. -/
def wEmpty : World :=
  { stats := { tracks_downloaded := 0, tracks_skipped_archive := 0
               tracks_skipped_exists := 0, tracks_failed := 0
               total_size_downloaded := 0 }
    archive_mem := [], archive_file := [], files := [], output_dirs := []
    fetches := [], head_requests := [] }

/-- A small album-info fixture. -/
def albW : AlbumInfo :=
  { artist_name := some "A", title := "X", version := ""
    release_date_original := some "2020-01-01", label_name := none, upc := ""
    media_count := 1, copyright := "", genre_name := none
    release_type := some "album", image_large := none, goodies_pdf := none }

/-- A small track-meta fixture. -/
def tmW : TrackMeta :=
  { id := 42, title := "Song", version := none, track_number := 3
    media_number := 1, performer_name := some "A", composer_name := none
    work_name := none, isrc := "", album := some albW }

/-- A `Download` configuration fixture with identity sanitizers. -/
def mkCfg (quality : Nat) (downgrade dry use_arch : Bool) : DlConfig :=
  { quality := quality, path := "dl"
    output_template := "\x7btracktitle\x7d.\x7bext\x7d"
    albums_only := false, embed_art := false, downgrade_quality := downgrade
    cover_og_quality := false, no_cover := true, dry_run := dry
    use_archive := use_arch, sanitize_fname := id, sanitize_fpath := id }

/-- A `track/getFileUrl` response fixture. -/
def udW : UrlDict :=
  { url := some "http://u", size := some 100, url_size := none
    sampling_rate := some (mkRat 441 10), bit_depth := some 16
    restrictions := [], sample := false, track_id := some 42 }

/-- The same response with the downgrade restriction code. -/
def udRestr : UrlDict :=
  { udW with restrictions := [some "FormatRestrictedByFormatAvailability"] }

/-! ## Helper lemmas -/

lemma leBytes_length : ∀ k x, (leBytes k x).length = k
  | 0, _ => rfl
  | k + 1, x => by simp [leBytes, leBytes_length k]

lemma md5Bytes_length (msg : List Nat) : (md5Bytes msg).length = 16 := by
  simp [md5Bytes, leBytes_length]

lemma hexCat_length : ∀ l : List Nat, (hexCat l).length = 2 * l.length
  | [] => rfl
  | b :: t => by simp [hexCat, hexCat_length t]; ring

lemma md5Hex_length (s : String) : (md5Hex s).length = 32 := by
  show (hexCat (md5Bytes (utf8Bytes s))).length = 32
  rw [hexCat_length, md5Bytes_length]

lemma hexDigit_mem (n : Nat) : hexDigit n ∈ hexDigits := by
  by_cases h : n < 16
  · interval_cases n <;> decide
  · unfold hexDigit
    rw [List.getD_eq_default]
    · decide
    · have : hexDigits.length = 16 := by decide
      omega

lemma mem_hexCat : ∀ (l : List Nat) (c : Char), c ∈ hexCat l → c ∈ hexDigits := by
  intro l
  induction l with
  | nil => intro c h; simp [hexCat] at h
  | cons b t ih =>
    intro c h
    simp only [hexCat, List.mem_cons] at h
    rcases h with h | h | h
    · exact h ▸ hexDigit_mem _
    · exact h ▸ hexDigit_mem _
    · exact ih c h

lemma md5Hex_chars (s : String) : ∀ c ∈ (md5Hex s).data, c ∈ hexDigits := by
  intro c hc
  exact mem_hexCat (md5Bytes (utf8Bytes s)) c hc

/-! ## Claim theorems -/

/-- **C1**: for every quality id in `{5, 6, 7, 27}`, track id, timestamp and
secret, `_prepare_file_url_params` returns `request_ts = ts`, `request_sig`
the lowercase hex MD5 digest (32 lowercase hex characters) of the exact
concatenation `"trackgetFileUrlformat_id" + fmt + "intentstreamtrack_id" +
trackId + ts + secret`, the track id, `format_id = fmt` and
`intent = "stream"`; and it is deterministic. -/
theorem C1_prepare_file_url_params (fmt trackId ts : Nat) (secret : String)
    (hf : fmt ∈ [5, 6, 7, 27]) :
    prepare_file_url_params fmt trackId ts secret =
      Except.ok
        { request_ts := ts
          request_sig := md5Hex ("trackgetFileUrlformat_id" ++ toString fmt ++
            "intentstreamtrack_id" ++ toString trackId ++ toString ts ++ secret)
          track_id := trackId
          format_id := fmt
          intent := "stream" } ∧
    (md5Hex (sigStr fmt trackId ts secret)).length = 32 ∧
    (∀ c ∈ (md5Hex (sigStr fmt trackId ts secret)).data, c ∈ hexDigits) ∧
    prepare_file_url_params fmt trackId ts secret =
      prepare_file_url_params fmt trackId ts secret := by
  refine ⟨?_, md5Hex_length _, md5Hex_chars _, rfl⟩
  unfold prepare_file_url_params
  rw [if_pos hf]
  rfl

/-- Witness for C1: the concrete instance `(5, 5966783, 0, "s")`, with the
digest evaluated. -/
theorem C1_prepare_file_url_params_witness :
    5 ∈ [5, 6, 7, 27] ∧
    prepare_file_url_params 5 5966783 0 "s" =
      Except.ok
        { request_ts := 0
          request_sig := "0a8796e3cef86c37997a9fa4c89b951a"
          track_id := 5966783
          format_id := 5
          intent := "stream" } := by
  refine ⟨by decide, ?_⟩
  rw [(C1_prepare_file_url_params 5 5966783 0 "s" (by decide)).1]
  decide

lemma cfg_loop_success (probe : String → Bool) :
    ∀ (pre : List String) (s : String) (rest : List String),
      (∀ x ∈ pre, x = "" ∨ probe x = false) → s ≠ "" → probe s = true →
      cfg_loop probe (pre ++ s :: rest) =
        (some s,
          (pre.filter fun x => x != "").map
              (fun x => { secret := x, track_id := 5966783, fmt_id := 5 }) ++
            [{ secret := s, track_id := 5966783, fmt_id := 5 }]) := by
  intro pre
  induction pre with
  | nil =>
    intro s rest hpre hs hps
    simp [cfg_loop, test_secret, hs, hps]
  | cons x pre ih =>
    intro s rest hpre hs hps
    have hx := hpre x (List.mem_cons_self x pre)
    have htail : ∀ y ∈ pre, y = "" ∨ probe y = false := fun y hy =>
      hpre y (List.mem_cons_of_mem x hy)
    have ih2 := ih s rest htail hs hps
    by_cases hxe : x = ""
    · subst hxe
      show cfg_loop probe ("" :: (pre ++ s :: rest)) = _
      rw [cfg_loop, if_pos rfl, ih2]
      simp
    · have hpx : probe x = false := hx.resolve_left hxe
      show cfg_loop probe (x :: (pre ++ s :: rest)) = _
      rw [cfg_loop, if_neg hxe]
      show (if (test_secret probe x).1 = true then _ else _) = _
      simp only [test_secret, hpx]
      rw [if_neg (by simp), ih2]
      simp [List.filter_cons, hxe]

lemma cfg_loop_allfail (probe : String → Bool) :
    ∀ secrets : List String, (∀ x ∈ secrets, x = "" ∨ probe x = false) →
      (cfg_loop probe secrets).1 = none := by
  intro secrets
  induction secrets with
  | nil => intro _; rfl
  | cons x rest ih =>
    intro h
    have hx := h x (List.mem_cons_self x rest)
    have htail := fun y hy => h y (List.mem_cons_of_mem x hy)
    by_cases hxe : x = ""
    · simp [cfg_loop, hxe, ih htail]
    · have hpx : probe x = false := hx.resolve_left hxe
      simp [cfg_loop, hxe, test_secret, hpx, ih htail]

/-- **C2 (amended)**: secret validation is a lazy, memoized, ordered
first-success trial over the *non-empty* candidates: with a secret already
cached nothing is probed; otherwise the non-empty candidates are probed in
list order (one signed call each, against track id 5966783 at quality 5, as
recorded in the probe log) up to and including the first success, which is
cached; candidates after the first success — in particular `good2` in
`[bad, bad, good, good2]` — are never probed; if every candidate is empty or
fails, the session fails with `InvalidAppSecretError`. -/
theorem C2_secret_validation (probe : String → Bool) :
    (∀ (s : String) (secrets : List String),
        cfg_setup probe (some s) secrets = (Except.ok s, [])) ∧
    (∀ (pre rest : List String) (s : String),
        (∀ x ∈ pre, x = "" ∨ probe x = false) → s ≠ "" → probe s = true →
        cfg_setup probe none (pre ++ s :: rest) =
          (Except.ok s,
            (pre.filter fun x => x != "").map
                (fun x => { secret := x, track_id := 5966783, fmt_id := 5 }) ++
              [{ secret := s, track_id := 5966783, fmt_id := 5 }])) ∧
    (∀ secrets : List String, (∀ x ∈ secrets, x = "" ∨ probe x = false) →
        (cfg_setup probe none secrets).1 =
          Except.error ApiError.invalidAppSecret) ∧
    (∀ b1 b2 g1 g2 : String, b1 ≠ "" → b2 ≠ "" → g1 ≠ "" →
        probe b1 = false → probe b2 = false → probe g1 = true →
        cfg_setup probe none [b1, b2, g1, g2] =
          (Except.ok g1,
            [{ secret := b1, track_id := 5966783, fmt_id := 5 },
             { secret := b2, track_id := 5966783, fmt_id := 5 },
             { secret := g1, track_id := 5966783, fmt_id := 5 }]) ∧
        (g2 ≠ b1 → g2 ≠ b2 → g2 ≠ g1 →
          ∀ pr ∈ (cfg_setup probe none [b1, b2, g1, g2]).2,
            pr.secret ≠ g2)) := by
  refine ⟨fun s secrets => rfl, ?_, ?_, ?_⟩
  · intro pre rest s hpre hs hps
    unfold cfg_setup
    rw [cfg_loop_success probe pre s rest hpre hs hps]
  · intro secrets h
    unfold cfg_setup
    rw [show (cfg_loop probe secrets) =
          ((cfg_loop probe secrets).1, (cfg_loop probe secrets).2) from rfl,
        cfg_loop_allfail probe secrets h]
  · intro b1 b2 g1 g2 hb1 hb2 hg1 hpb1 hpb2 hpg1
    have key :
        cfg_setup probe none [b1, b2, g1, g2] =
          (Except.ok g1,
            [{ secret := b1, track_id := 5966783, fmt_id := 5 },
             { secret := b2, track_id := 5966783, fmt_id := 5 },
             { secret := g1, track_id := 5966783, fmt_id := 5 }]) := by
      have h := cfg_loop_success probe [b1, b2] g1 [g2]
        (by
          intro x hx
          simp only [List.mem_cons, List.not_mem_nil, or_false] at hx
          rcases hx with rfl | rfl
          · exact Or.inr hpb1
          · exact Or.inr hpb2)
        hg1 hpg1
      unfold cfg_setup
      rw [show ([b1, b2, g1, g2] : List String) = [b1, b2] ++ g1 :: [g2] from rfl, h]
      simp [List.filter_cons, hb1, hb2]
    refine ⟨key, ?_⟩
    intro hne1 hne2 hne3 pr hpr
    rw [key] at hpr
    simp only [List.mem_cons, List.not_mem_nil, or_false] at hpr
    rcases hpr with rfl | rfl | rfl
    · exact fun h => hne1 h.symm
    · exact fun h => hne2 h.symm
    · exact fun h => hne3 h.symm

/-- Counterexample to C2 as stated: the candidate list `[""]` with a probe
that succeeds on every secret.  The claim says each candidate is probed in
order and the first whose probe does not fail is cached; the code skips the
falsy candidate without probing it and fails the session. -/
theorem C2_counterexample :
    (fun _ : String => true) "" = true ∧
    cfg_setup (fun _ => true) none [""] =
      (Except.error ApiError.invalidAppSecret, []) := by
  constructor
  · rfl
  · decide

/-- Witness for C2: the spec's scenario with `probe` validating exactly the
`good*` secrets. -/
theorem C2_secret_validation_witness :
    cfg_setup (fun s => s == "good" || s == "good2") none
        ["bad1", "bad2", "good", "good2"] =
      (Except.ok "good",
        [{ secret := "bad1", track_id := 5966783, fmt_id := 5 },
         { secret := "bad2", track_id := 5966783, fmt_id := 5 },
         { secret := "good", track_id := 5966783, fmt_id := 5 }]) :=
  ((C2_secret_validation (fun s => s == "good" || s == "good2")).2.2.2
    "bad1" "bad2" "good" "good2" (by decide) (by decide) (by decide)
    (by decide) (by decide) (by decide)).1

lemma yp_unfold (resp : Nat → Page) (fuel off : Nat) :
    yield_paginated resp (fuel + 1) off =
      { offset := off, limit := 500 } ::
        (if stopAt resp off then []
         else yield_paginated resp fuel (off + (resp off).items)) := by
  rfl

lemma yp_ne_nil (resp : Nat → Page) (fuel off : Nat) (h : 0 < fuel) :
    yield_paginated resp fuel off ≠ [] := by
  cases fuel with
  | zero => omega
  | succ n => rw [yp_unfold]; exact List.cons_ne_nil _ _

lemma yp_head (resp : Nat → Page) (fuel off : Nat) (h : 0 < fuel) :
    (yield_paginated resp fuel off).get? 0 =
      some { offset := off, limit := 500 } := by
  cases fuel with
  | zero => omega
  | succ n => rw [yp_unfold]; rfl

lemma yp_limit (resp : Nat → Page) :
    ∀ fuel off, ∀ r ∈ yield_paginated resp fuel off, r.limit = 500 := by
  intro fuel
  induction fuel with
  | zero => intro off r hr; cases hr
  | succ n ih =>
    intro off r hr
    rw [yp_unfold] at hr
    rcases List.mem_cons.mp hr with rfl | hr
    · rfl
    · by_cases hstop : stopAt resp off
      · rw [if_pos hstop] at hr; cases hr
      · rw [if_neg hstop] at hr; exact ih _ r hr

lemma yp_succ (resp : Nat → Page) :
    ∀ fuel off k r r2,
      (yield_paginated resp fuel off).get? k = some r →
      (yield_paginated resp fuel off).get? (k + 1) = some r2 →
      r2.offset = r.offset + (resp r.offset).items ∧ ¬stopAt resp r.offset := by
  intro fuel
  induction fuel with
  | zero => intro off k r r2 h1 _; cases h1
  | succ n ih =>
    intro off k r r2 h1 h2
    rw [yp_unfold] at h1 h2
    by_cases hstop : stopAt resp off
    · rw [if_pos hstop] at h1 h2
      -- the singleton list has no element at index k+1
      cases k with
      | zero => cases h2
      | succ m => cases h1
    · rw [if_neg hstop] at h1 h2
      cases k with
      | zero =>
        have hr : r = { offset := off, limit := 500 } := by
          injection h1 with h; exact h.symm
        subst hr
        rw [List.get?_cons_succ] at h2
        have hn : 0 < n := by
          rcases Nat.eq_zero_or_pos n with rfl | hn
          · cases h2
          · exact hn
        rw [yp_head resp n _ hn] at h2
        injection h2 with h2
        subst h2
        exact ⟨rfl, hstop⟩
      | succ m =>
        rw [List.get?_cons_succ] at h1 h2
        exact ih _ m r r2 h1 h2

lemma yp_last (resp : Nat → Page) :
    ∀ fuel off, (yield_paginated resp fuel off).length < fuel →
      ∀ r, (yield_paginated resp fuel off).getLast? = some r →
        stopAt resp r.offset := by
  intro fuel
  induction fuel with
  | zero => intro off h; omega
  | succ n ih =>
    intro off hlen r hlast
    rw [yp_unfold] at hlen hlast
    by_cases hstop : stopAt resp off
    · rw [if_pos hstop] at hlast
      injection hlast with h
      subst h
      exact hstop
    · rw [if_neg hstop] at hlen hlast
      have hlen2 : (yield_paginated resp n (off + (resp off).items)).length < n := by
        simp only [List.length_cons] at hlen
        omega
      have hne : yield_paginated resp n (off + (resp off).items) ≠ [] := by
        apply yp_ne_nil
        omega
      obtain ⟨y, t, heq⟩ := List.exists_cons_of_ne_nil hne
      rw [heq] at hlast hlen2
      rw [List.getLast?_cons_cons] at hlast
      exact ih (off + (resp off).items) (by rw [heq]; exact hlen2) r
        (by rw [heq]; exact hlast)

/-- **C4**: every page request of `_yield_paginated` carries `limit = 500`;
the first request has offset 0 and each request's offset is the sum of the
item counts of all previous pages; the loop continues past a page exactly
when that page is non-empty and `offset + items < declared total`, and
(given enough fuel that the loop was not cut short) the last page requested
satisfies the break condition — empty page or
`offset + items >= declared total`, whichever comes first. -/
theorem C4_pagination (resp : Nat → Page) (fuel : Nat)
    (hfuel : (yield_paginated resp fuel 0).length < fuel) :
    (∀ r ∈ yield_paginated resp fuel 0, r.limit = 500) ∧
    (yield_paginated resp fuel 0).get? 0 = some { offset := 0, limit := 500 } ∧
    (∀ k r, (yield_paginated resp fuel 0).get? k = some r →
        r.offset = (((yield_paginated resp fuel 0).take k).map
          (fun q => (resp q.offset).items)).sum) ∧
    (∀ k r r2, (yield_paginated resp fuel 0).get? k = some r →
        (yield_paginated resp fuel 0).get? (k + 1) = some r2 →
        r2.offset = r.offset + (resp r.offset).items ∧ ¬stopAt resp r.offset) ∧
    (∀ r, (yield_paginated resp fuel 0).getLast? = some r →
        stopAt resp r.offset) := by
  have hfpos : 0 < fuel := by omega
  refine ⟨yp_limit resp fuel 0, yp_head resp fuel 0 hfpos, ?_,
    yp_succ resp fuel 0, yp_last resp fuel 0 hfuel⟩
  intro k
  induction k with
  | zero =>
    intro r hr
    rw [yp_head resp fuel 0 hfpos] at hr
    injection hr with h
    subst h
    rfl
  | succ m ih =>
    intro r hr
    have hlt : m + 1 < (yield_paginated resp fuel 0).length :=
      List.get?_eq_some.mp hr |>.1
    have hm : m < (yield_paginated resp fuel 0).length := by omega
    obtain ⟨rm, hrm⟩ : ∃ rm, (yield_paginated resp fuel 0).get? m = some rm := by
      rw [List.get?_eq_get hm]; exact ⟨_, rfl⟩
    have hsum := ih rm hrm
    have hstep := yp_succ resp fuel 0 m rm r hrm hr
    have hrm2 : (yield_paginated resp fuel 0)[m]? = some rm := by
      rw [← List.get?_eq_getElem?]; exact hrm
    rw [List.take_succ, hrm2]
    simp only [List.map_append, List.sum_append, Option.toList_some,
      List.map_cons, List.map_nil, List.sum_cons, List.sum_nil]
    omega

/-- Witness for C4: a two-page listing (`total = 3`, pages of 2 then 1
items); the loop issues requests at offsets 0 and 2 with `limit = 500` and
stops because `2 + 1 >= 3`. -/
theorem C4_pagination_witness :
    (yield_paginated
        (fun o => if o = 0 then { items := 2, total := 3 }
                  else { items := 1, total := 3 }) 5 0).length < 5 ∧
    stopAt
      (fun o => if o = 0 then { items := 2, total := 3 }
                else { items := 1, total := 3 }) 2 := by
  refine ⟨by decide, ?_⟩
  have h := (C4_pagination
    (fun o => if o = 0 then { items := 2, total := 3 }
              else { items := 1, total := 3 }) 5 (by decide)).2.2.2.2
  exact h { offset := 2, limit := 500 } (by decide)

lemma countP_set {α : Type} (p : α → Bool) :
    ∀ (l : List α) (i : Nat) (a v : α), l.get? i = some a →
      (l.set i v).countP p + (if p a then 1 else 0) =
        l.countP p + (if p v then 1 else 0) := by
  intro l
  induction l with
  | nil => intro i a v h; cases h
  | cons x t ih =>
    intro i a v h
    cases i with
    | zero =>
      injection h with h
      subst h
      simp only [List.set_cons_zero, List.countP_cons]
      omega
    | succ j =>
      rw [List.get?_cons_succ] at h
      simp only [List.set_cons_succ, List.countP_cons]
      have := ih j a v h
      omega

lemma sched_invariant (n N : Nat) (s : SchedState)
    (h : SchedReachable n N s) :
    s.jobs.length = N ∧ inflightCount s + s.permits = n ∧
      (s.completed = true → ∀ j ∈ s.jobs, j = JStatus.jobDone) := by
  induction h with
  | refl =>
    have hzero : inflightCount (initSched n N) = 0 := by
      apply List.countP_eq_zero.mpr
      intro a ha
      rw [List.eq_of_mem_replicate ha]
      decide
    simp only [initSched] at hzero
    refine ⟨List.length_replicate _ _, ?_, ?_⟩
    · simp [hzero, initSched]
    · intro hc; cases hc
  | tail _ hstep ih =>
    obtain ⟨ihlen, ihcnt, ihdone⟩ := ih
    cases hstep with
    | start i h hp hc =>
      refine ⟨by simpa using ihlen, ?_, by intro hcc; cases hc ▸ hcc⟩
      have hcp := countP_set isInflight _ i JStatus.queued (.inflight 0) h
      simp only [inflightCount] at ihcnt ⊢
      simp only [isInflight] at hcp
      simp at hcp
      omega
    | advance i k h hc =>
      refine ⟨by simpa using ihlen, ?_, by intro hcc; cases hc ▸ hcc⟩
      have hcp := countP_set isInflight _ i (JStatus.inflight k)
        (.inflight (k + 1)) h
      simp only [inflightCount] at ihcnt ⊢
      simp only [isInflight] at hcp
      simp at hcp
      omega
    | finish i k h hc =>
      refine ⟨by simpa using ihlen, ?_, by intro hcc; cases hc ▸ hcc⟩
      have hcp := countP_set isInflight _ i (JStatus.inflight k)
        JStatus.jobDone h
      simp only [inflightCount] at ihcnt ⊢
      simp only [isInflight] at hcp
      simp at hcp
      omega
    | complete h hc =>
      exact ⟨ihlen, ihcnt, fun _ => h⟩

/-- **C9**: in every scheduler state reachable for one content item with
`max_workers` permits and `numJobs` track jobs, at most `max_workers`
materializations are simultaneously in flight (past their first suspension
point and not completed) — in particular at most 2 with `max_workers = 2`
and 10 jobs — and the orchestrator declares the item complete only when
every job is done. -/
theorem C9_semaphore_bound (max_workers numJobs : Nat) (s : SchedState)
    (h : SchedReachable max_workers numJobs s) :
    inflightCount s ≤ max_workers ∧ s.jobs.length = numJobs ∧
      (s.completed = true → ∀ j ∈ s.jobs, j = JStatus.jobDone) := by
  obtain ⟨hlen, hcnt, hdone⟩ := sched_invariant max_workers numJobs s h
  exact ⟨by omega, hlen, hdone⟩

/-- Witness for C9: with `max_workers = 2` and 10 jobs, the state reached by
starting jobs 0 and 1 is reachable, has 2 in-flight jobs, and satisfies the
bound. -/
theorem C9_semaphore_bound_witness :
    inflightCount
        { jobs := (((initSched 2 10).jobs.set 0 (.inflight 0)).set 1
            (.inflight 0))
          permits := 0
          completed := false } ≤ 2 := by
  have h1 : SchedStep (initSched 2 10)
      { jobs := (initSched 2 10).jobs.set 0 (.inflight 0), permits := 1
        completed := false } :=
    SchedStep.start (initSched 2 10) 0 (by decide) (by decide) rfl
  have h2 : SchedStep
      { jobs := (initSched 2 10).jobs.set 0 (.inflight 0), permits := 1
        completed := false }
      { jobs := (((initSched 2 10).jobs.set 0 (.inflight 0)).set 1
          (.inflight 0))
        permits := 0
        completed := false } :=
    SchedStep.start _ 1 (by decide) (by decide) rfl
  exact (C9_semaphore_bound 2 10 _
    (Relation.ReflTransGen.tail (Relation.ReflTransGen.tail
      Relation.ReflTransGen.refl h1) h2)).1

lemma contains_append_single (l : List String) (a g : String) (h : g ≠ a) :
    (l ++ [a]).contains g = l.contains g := by
  simp [h]

lemma contains_append_self (l : List String) (a : String) :
    (l ++ [a]).contains a = true := by
  simp

lemma download_file_frame (w : World) (url f : String) (og ok : Bool) :
    (download_file w url f og ok).2.stats = w.stats ∧
    (download_file w url f og ok).2.archive_mem = w.archive_mem ∧
    (download_file w url f og ok).2.archive_file = w.archive_file ∧
    (download_file w url f og ok).2.output_dirs = w.output_dirs ∧
    (download_file w url f og ok).2.head_requests = w.head_requests ∧
    ∀ g, g ≠ f →
      (download_file w url f og ok).2.files.contains g = w.files.contains g := by
  unfold download_file
  by_cases h : w.files.contains f <;> by_cases hok : ok <;>
    simp_all [contains_append_single]

lemma download_file_spec (w : World) (url f : String) (og ok : Bool)
    (hnf : w.files.contains f = false) :
    (download_file w url f og ok).1 = ok ∧
    (download_file w url f og ok).2.files.contains f = ok := by
  cases ok <;> simp_all [download_file]

lemma frame_cover (cfg : DlConfig) (eff : AlbumInfo) (fdir : String)
    (co : Bool) :
    FrameExcept
      (fun w0 =>
        if !cfg.no_cover then
          match eff.image_large with
          | some image_url =>
            (download_file w0 image_url (pathJoin fdir "cover.jpg")
              cfg.cover_og_quality co).2
          | none => w0
        else w0)
      [pathJoin fdir "cover.jpg"] := by
  intro w0
  by_cases hnc : cfg.no_cover
  · simp [hnc]
  · cases him : eff.image_large with
    | none => simp [hnc, him]
    | some image_url =>
      simp only [hnc, him, Bool.not_false, if_true]
      obtain ⟨h1, h2, h3, h4, h5, h6⟩ :=
        download_file_frame w0 image_url (pathJoin fdir "cover.jpg")
          cfg.cover_og_quality co
      exact ⟨h1, h2, h3, h4, h5,
        fun g hg => h6 g (by simpa using hg)⟩

lemma frame_booklet (eff : AlbumInfo) (fdir : String) (bo : Bool) :
    FrameExcept
      (fun w0 =>
        match eff.goodies_pdf with
        | some burl =>
          if burl.endsWith ".pdf" then
            (download_file w0 (pathJoin fdir "booklet.pdf")
              (pathJoin fdir "booklet.pdf") false bo).2
          else w0
        | none => w0)
      [pathJoin fdir "booklet.pdf"] := by
  intro w0
  cases hgood : eff.goodies_pdf with
  | none => simp
  | some burl =>
    by_cases hpdf : burl.endsWith ".pdf"
    · simp only [hpdf, if_true]
      obtain ⟨h1, h2, h3, h4, h5, h6⟩ :=
        download_file_frame w0 (pathJoin fdir "booklet.pdf")
          (pathJoin fdir "booklet.pdf") false bo
      exact ⟨h1, h2, h3, h4, h5,
        fun g hg => h6 g (by simpa using hg)⟩
    · simp [hpdf]

lemma side_assets_frame (cfg : DlConfig) (w : World) (eff : AlbumInfo)
    (fdir : String) (co bo : Bool) :
    (side_assets cfg w eff fdir co bo).stats = w.stats ∧
    (side_assets cfg w eff fdir co bo).archive_mem = w.archive_mem ∧
    (side_assets cfg w eff fdir co bo).archive_file = w.archive_file ∧
    (side_assets cfg w eff fdir co bo).output_dirs = w.output_dirs ∧
    (side_assets cfg w eff fdir co bo).head_requests = w.head_requests ∧
    ∀ g, g ≠ pathJoin fdir "cover.jpg" → g ≠ pathJoin fdir "booklet.pdf" →
      (side_assets cfg w eff fdir co bo).files.contains g =
        w.files.contains g := by
  obtain ⟨c1, c2, c3, c4, c5, c6⟩ := frame_cover cfg eff fdir co w
  obtain ⟨b1, b2, b3, b4, b5, b6⟩ := frame_booklet eff fdir bo
    ((fun w0 =>
        if !cfg.no_cover then
          match eff.image_large with
          | some image_url =>
            (download_file w0 image_url (pathJoin fdir "cover.jpg")
              cfg.cover_og_quality co).2
          | none => w0
        else w0) w)
  exact ⟨b1.trans c1, b2.trans c2, b3.trans c3, b4.trans c4, b5.trans c5,
    fun g hg1 hg2 =>
      (b6 g (by simpa using hg2)).trans (c6 g (by simpa using hg1))⟩

lemma pathJoin_ne_of_ne (d : String) (n1 n2 : String) (h : n1 ≠ n2) :
    pathJoin d n1 ≠ pathJoin d n2 := by
  unfold pathJoin
  by_cases hd : d = ""
  · simpa [hd] using h
  · rw [if_neg hd, if_neg hd]
    intro heq
    apply h
    apply String.ext
    have hdata := congrArg String.data heq
    simp only [String.data_append, List.append_assoc] at hdata
    exact List.append_cancel_left (List.append_cancel_left hdata)

lemma temp_name_ne_cover (tid : Nat) :
    ("." ++ toString tid ++ ".tmp" : String) ≠ "cover.jpg" := by
  intro h
  have := congrArg String.data h
  simp only [String.data_append] at this
  have hc : '.' = 'c' := by
    have h2 := congrArg (fun l => l.head?) this
    simp at h2
  cases hc

lemma temp_name_ne_booklet (tid : Nat) :
    ("." ++ toString tid ++ ".tmp" : String) ≠ "booklet.pdf" := by
  intro h
  have := congrArg String.data h
  simp only [String.data_append] at this
  have hc : '.' = 'b' := by
    have h2 := congrArg (fun l => l.head?) this
    simp at h2
  cases hc

lemma preAudioWorld_frame (cfg : DlConfig) (w : World) (tm : TrackMeta)
    (aot : AOTMeta) (ev : NetEvents) (ff : String) :
    (preAudioWorld cfg w tm aot ev ff).stats = w.stats ∧
    (preAudioWorld cfg w tm aot ev ff).archive_mem = w.archive_mem ∧
    (preAudioWorld cfg w tm aot ev ff).archive_file = w.archive_file ∧
    (preAudioWorld cfg w tm aot ev ff).files.contains
        (pathJoin (finalDirOf cfg ff) (tempNameOf tm.id)) =
      w.files.contains (pathJoin (finalDirOf cfg ff) (tempNameOf tm.id)) := by
  obtain ⟨sa1, sa2, sa3, sa4, sa5, sa6⟩ := side_assets_frame cfg
    { w with output_dirs := addDistinct w.output_dirs (finalDirOf cfg ff) }
    (effectiveInfo aot) (finalDirOf cfg ff) ev.cover_ok ev.booklet_ok
  refine ⟨sa1, sa2, sa3, ?_⟩
  unfold preAudioWorld tempNameOf
  rw [sa6 _ (pathJoin_ne_of_ne _ _ _ (temp_name_ne_cover tm.id))
    (pathJoin_ne_of_ne _ _ _ (temp_name_ne_booklet tm.id))]

/-- The equational form of `_download_and_tag` on the download path: archive
gate passed, template rendered, not a dry run, final file absent, url
present, temporary file absent. -/
lemma dtag_unfold (cfg : DlConfig) (w : World) (tm : TrackMeta)
    (ud : UrlDict) (aot : AOTMeta) (ev : NetEvents) (ff url : String)
    (hgate : (cfg.use_archive && is_in_archive w tm.id) = false)
    (hren : format_template_string (template_vars cfg tm (effectiveInfo aot) ud)
      cfg.output_template = some ff)
    (hdry : cfg.dry_run = false)
    (hex : w.files.contains (cfg.sanitize_fpath ff) = false)
    (hurl : ud.url = some url)
    (htmp : w.files.contains
      (pathJoin (finalDirOf cfg ff) (tempNameOf tm.id)) = false) :
    download_and_tag cfg w tm ud aot ev =
      (if ev.audio_ok then
        (if ev.tag_ok then
          (let wS := preAudioWorld cfg w tm aot ev ff
           let rw2 := (download_file wS url
             (pathJoin (finalDirOf cfg ff) (tempNameOf tm.id)) false
             ev.audio_ok).2
           let w3files := rw2.files.erase
             (pathJoin (finalDirOf cfg ff) (tempNameOf tm.id)) ++
             [cfg.sanitize_fpath ff]
           let w3 := { rw2 with files := w3files }
           let w4 := if cfg.use_archive then
               add_to_archive cfg.dry_run cfg.use_archive w3 tm.id
             else w3
           Except.ok { w4 with
             stats.tracks_downloaded := w4.stats.tracks_downloaded + 1
             stats.total_size_downloaded :=
               w4.stats.total_size_downloaded + ud.size.getD 0 })
        else
          Except.ok
            { (download_file (preAudioWorld cfg w tm aot ev ff) url
                (pathJoin (finalDirOf cfg ff) (tempNameOf tm.id)) false
                ev.audio_ok).2 with
              stats.tracks_failed :=
                (download_file (preAudioWorld cfg w tm aot ev ff) url
                  (pathJoin (finalDirOf cfg ff) (tempNameOf tm.id)) false
                  ev.audio_ok).2.stats.tracks_failed + 1 })
      else
        Except.ok
          { (download_file (preAudioWorld cfg w tm aot ev ff) url
              (pathJoin (finalDirOf cfg ff) (tempNameOf tm.id)) false
              ev.audio_ok).2 with
            stats.tracks_failed :=
              (download_file (preAudioWorld cfg w tm aot ev ff) url
                (pathJoin (finalDirOf cfg ff) (tempNameOf tm.id)) false
                ev.audio_ok).2.stats.tracks_failed + 1 }) := by
  have hsatmp : (preAudioWorld cfg w tm aot ev ff).files.contains
      (pathJoin (finalDirOf cfg ff) (tempNameOf tm.id)) = false :=
    (preAudioWorld_frame cfg w tm aot ev ff).2.2.2.trans htmp
  have hr := (download_file_spec (preAudioWorld cfg w tm aot ev ff) url
    (pathJoin (finalDirOf cfg ff) (tempNameOf tm.id)) false ev.audio_ok
    hsatmp).1
  unfold download_and_tag
  simp only [hgate, Bool.false_eq_true, if_false]
  rw [hren]
  simp only [hdry, Bool.false_eq_true, if_false]
  rw [if_neg (by simpa using hex)]
  rw [hurl]
  cases hA : ev.audio_ok <;> cases hT : ev.tag_ok <;>
    rw [hA] at hr <;>
    simp only [preAudioWorld, finalDirOf, tempNameOf] at hr <;>
    simp [hr, hA, hT, preAudioWorld, finalDirOf, tempNameOf]

lemma add_to_archive_frame (d a : Bool) (w : World) (tid : Nat) :
    (add_to_archive d a w tid).stats = w.stats ∧
    (add_to_archive d a w tid).files = w.files ∧
    (add_to_archive d a w tid).output_dirs = w.output_dirs ∧
    (add_to_archive d a w tid).fetches = w.fetches ∧
    (add_to_archive d a w tid).head_requests = w.head_requests := by
  unfold add_to_archive
  by_cases h1 : (d || !a) = true
  · simp [h1]
  · simp only [h1, Bool.false_eq_true, if_false]
    by_cases h2 : toString tid ∈ w.archive_mem <;> simp [h2]

lemma add_to_archive_stats (d a : Bool) (w : World) (tid : Nat) :
    (add_to_archive d a w tid).stats = w.stats :=
  (add_to_archive_frame d a w tid).1

lemma add_to_archive_new (w : World) (tid : Nat)
    (h : w.archive_mem.contains (toString tid) = false) :
    (add_to_archive false true w tid).archive_mem =
      w.archive_mem ++ [toString tid] ∧
    (add_to_archive false true w tid).archive_file =
      w.archive_file ++ [toString tid] := by
  unfold add_to_archive
  simp only [Bool.not_true, Bool.or_false, Bool.false_eq_true, if_false]
  rw [if_neg (by simp_all)]
  exact ⟨rfl, rfl⟩

lemma archive_roundtrip (w3 : World) (tid : Nat)
    (h : w3.archive_mem.contains (toString tid) = false) :
    (add_to_archive false true w3 tid).archive_mem.contains
      (toString tid) = true := by
  rw [(add_to_archive_new w3 tid h).1]
  simp


/-- **C6**: audio bytes are streamed to the hidden temporary file
`".{track_id}.tmp"` in the computed destination directory; on a transport
failure during the byte stream the temporary file is absent (the partial
file is deleted), the failed counter is incremented, and the archive and
the downloaded/byte counters are unchanged; when the download succeeds but
the tagging collaborator raises, the failed counter is incremented and the
temporary file stays in place; the archive registration and the
downloaded/byte increments happen exactly on the tag-success path. -/
theorem C6_temp_file_and_failure_isolation (cfg : DlConfig) (w : World)
    (tm : TrackMeta) (ud : UrlDict) (aot : AOTMeta) (ev : NetEvents)
    (ff url : String)
    (hgate : (cfg.use_archive && is_in_archive w tm.id) = false)
    (hren : format_template_string (template_vars cfg tm (effectiveInfo aot) ud)
      cfg.output_template = some ff)
    (hdry : cfg.dry_run = false)
    (hex : w.files.contains (cfg.sanitize_fpath ff) = false)
    (hurl : ud.url = some url)
    (htmp : w.files.contains
      (pathJoin (finalDirOf cfg ff) (tempNameOf tm.id)) = false) :
    (ev.audio_ok = false →
      ∃ w2, download_and_tag cfg w tm ud aot ev = .ok w2 ∧
        w2.files.contains
          (pathJoin (finalDirOf cfg ff) (tempNameOf tm.id)) = false ∧
        w2.stats.tracks_failed = w.stats.tracks_failed + 1 ∧
        w2.stats.tracks_downloaded = w.stats.tracks_downloaded ∧
        w2.stats.total_size_downloaded = w.stats.total_size_downloaded ∧
        w2.archive_mem = w.archive_mem ∧
        w2.archive_file = w.archive_file) ∧
    (ev.audio_ok = true → ev.tag_ok = false →
      ∃ w2, download_and_tag cfg w tm ud aot ev = .ok w2 ∧
        w2.files.contains
          (pathJoin (finalDirOf cfg ff) (tempNameOf tm.id)) = true ∧
        w2.stats.tracks_failed = w.stats.tracks_failed + 1 ∧
        w2.stats.tracks_downloaded = w.stats.tracks_downloaded ∧
        w2.stats.total_size_downloaded = w.stats.total_size_downloaded ∧
        w2.archive_mem = w.archive_mem ∧
        w2.archive_file = w.archive_file) ∧
    (ev.audio_ok = true → ev.tag_ok = true →
      ∃ w2, download_and_tag cfg w tm ud aot ev = .ok w2 ∧
        w2.stats.tracks_downloaded = w.stats.tracks_downloaded + 1 ∧
        w2.stats.total_size_downloaded =
          w.stats.total_size_downloaded + ud.size.getD 0 ∧
        w2.stats.tracks_failed = w.stats.tracks_failed ∧
        (cfg.use_archive = true → is_in_archive w2 tm.id = true) ∧
        (cfg.use_archive = false → w2.archive_mem = w.archive_mem ∧
          w2.archive_file = w.archive_file)) := by
  have hu := dtag_unfold cfg w tm ud aot ev ff url hgate hren hdry hex hurl htmp
  obtain ⟨pa1, pa2, pa3, pa4⟩ := preAudioWorld_frame cfg w tm aot ev ff
  have hsatmp : (preAudioWorld cfg w tm aot ev ff).files.contains
      (pathJoin (finalDirOf cfg ff) (tempNameOf tm.id)) = false :=
    pa4.trans htmp
  refine ⟨?_, ?_, ?_⟩
  · intro hA
    rw [hA] at hu
    simp only [Bool.false_eq_true, if_false] at hu
    obtain ⟨df1, df2, df3, df4, df5, df6⟩ := download_file_frame
      (preAudioWorld cfg w tm aot ev ff) url
      (pathJoin (finalDirOf cfg ff) (tempNameOf tm.id)) false false
    have hdf := (download_file_spec (preAudioWorld cfg w tm aot ev ff) url
      (pathJoin (finalDirOf cfg ff) (tempNameOf tm.id)) false false hsatmp).2
    refine ⟨_, hu, ?_, ?_, ?_, ?_, ?_, ?_⟩
    · simpa using hdf
    · simp [df1, pa1]
    · simp [df1, pa1]
    · simp [df1, pa1]
    · simp [df2, pa2]
    · simp [df3, pa3]
  · intro hA hT
    rw [hA, hT] at hu
    simp only [if_true, Bool.true_eq_false, Bool.false_eq_true, if_false] at hu
    obtain ⟨df1, df2, df3, df4, df5, df6⟩ := download_file_frame
      (preAudioWorld cfg w tm aot ev ff) url
      (pathJoin (finalDirOf cfg ff) (tempNameOf tm.id)) false true
    have hdf := (download_file_spec (preAudioWorld cfg w tm aot ev ff) url
      (pathJoin (finalDirOf cfg ff) (tempNameOf tm.id)) false true hsatmp).2
    refine ⟨_, hu, ?_, ?_, ?_, ?_, ?_, ?_⟩
    · simpa using hdf
    · simp [df1, pa1]
    · simp [df1, pa1]
    · simp [df1, pa1]
    · simp [df2, pa2]
    · simp [df3, pa3]
  · intro hA hT
    rw [hA, hT] at hu
    simp only [if_true] at hu
    obtain ⟨df1, df2, df3, df4, df5, df6⟩ := download_file_frame
      (preAudioWorld cfg w tm aot ev ff) url
      (pathJoin (finalDirOf cfg ff) (tempNameOf tm.id)) false true
    refine ⟨_, hu, ?_, ?_, ?_, ?_, ?_⟩
    · simp [apply_ite World.stats, add_to_archive_stats, df1, pa1]
    · simp [apply_ite World.stats, add_to_archive_stats, df1, pa1]
    · simp [apply_ite World.stats, add_to_archive_stats, df1, pa1]
    · intro hua
      have harch : w.archive_mem.contains (toString tm.id) = false := by
        cases hh : is_in_archive w tm.id
        · exact hh
        · rw [hua, hh] at hgate; cases hgate
      unfold is_in_archive
      simp only [hua, hdry, if_true]
      exact archive_roundtrip _ tm.id (by simp [df2, pa2]; simpa using harch)
    · intro hua
      simp [hua, df2, pa2, df3, pa3]

lemma dtag_success_archives (cfg : DlConfig) (w : World) (tm : TrackMeta)
    (ud : UrlDict) (aot : AOTMeta) (ev : NetEvents) (ff url : String)
    (hgate : (cfg.use_archive && is_in_archive w tm.id) = false)
    (hren : format_template_string (template_vars cfg tm (effectiveInfo aot) ud)
      cfg.output_template = some ff)
    (hdry : cfg.dry_run = false)
    (hex : w.files.contains (cfg.sanitize_fpath ff) = false)
    (hurl : ud.url = some url)
    (htmp : w.files.contains
      (pathJoin (finalDirOf cfg ff) (tempNameOf tm.id)) = false)
    (hua : cfg.use_archive = true)
    (hA : ev.audio_ok = true) (hT : ev.tag_ok = true) :
    ∃ w2, download_and_tag cfg w tm ud aot ev = .ok w2 ∧
      is_in_archive w2 tm.id = true := by
  have hu := dtag_unfold cfg w tm ud aot ev ff url hgate hren hdry hex hurl htmp
  rw [hA, hT] at hu
  simp only [if_true] at hu
  obtain ⟨pa1, pa2, pa3, pa4⟩ := preAudioWorld_frame cfg w tm aot ev ff
  obtain ⟨df1, df2, df3, df4, df5, df6⟩ := download_file_frame
    (preAudioWorld cfg w tm aot ev ff) url
    (pathJoin (finalDirOf cfg ff) (tempNameOf tm.id)) false true
  have harch : w.archive_mem.contains (toString tm.id) = false := by
    cases hh : is_in_archive w tm.id
    · exact hh
    · rw [hua, hh] at hgate; cases hgate
  refine ⟨_, hu, ?_⟩
  unfold is_in_archive
  simp only [hua, hdry, if_true]
  exact archive_roundtrip _ tm.id (by simp [df2, pa2]; simpa using harch)

/-- **C7**: archive dedup is idempotent.  Adding an id makes every later
membership check true; adding a present id changes nothing (in particular
nothing is appended to the file); the on-disk append is visible both to the
same session (in-memory set) and, via `_load_archive`, to a later session;
a track whose id is archived is skipped at the pre-download check of
`_download_and_tag` (silently) and of `download_track` (counted as
skipped-archive) with the world otherwise untouched — no audio fetch; and a
successful materialization followed by a second materialization of the same
track performs no work the second time: at most one audio fetch. -/
theorem C7_archive_dedup :
    (∀ (w : World) (tid : Nat),
        is_in_archive (add_to_archive false true w tid) tid = true) ∧
    (∀ (w : World) (tid : Nat), is_in_archive w tid = true →
        add_to_archive false true w tid = w) ∧
    (∀ (w : World) (tid : Nat),
        add_to_archive false true (add_to_archive false true w tid) tid =
          add_to_archive false true w tid) ∧
    (∀ (w : World) (tid : Nat), is_in_archive w tid = false →
        (add_to_archive false true w tid).archive_file =
          w.archive_file ++ [toString tid] ∧
        (load_archive (add_to_archive false true w tid).archive_file).contains
          (toString tid) = true) ∧
    (∀ (cfg : DlConfig) (w : World) (tm : TrackMeta) (ud : UrlDict)
        (aot : AOTMeta) (ev : NetEvents),
        cfg.use_archive = true → is_in_archive w tm.id = true →
        download_and_tag cfg w tm ud aot ev = .ok w) ∧
    (∀ (cfg : DlConfig) (w : World) (meta : TrackMeta)
        (parse : Except ApiError UrlDict) (hp : Bool) (hs : String → Nat)
        (ev : NetEvents),
        cfg.use_archive = true → is_in_archive w meta.id = true →
        download_track cfg w meta parse hp hs ev =
          .ok { w with stats.tracks_skipped_archive :=
            w.stats.tracks_skipped_archive + 1 }) ∧
    (∀ (cfg : DlConfig) (w : World) (tm : TrackMeta) (ud : UrlDict)
        (aot : AOTMeta) (ev ev2 : NetEvents) (ff url : String),
        (cfg.use_archive && is_in_archive w tm.id) = false →
        format_template_string (template_vars cfg tm (effectiveInfo aot) ud)
          cfg.output_template = some ff →
        cfg.dry_run = false →
        w.files.contains (cfg.sanitize_fpath ff) = false →
        ud.url = some url →
        w.files.contains
          (pathJoin (finalDirOf cfg ff) (tempNameOf tm.id)) = false →
        cfg.use_archive = true → ev.audio_ok = true → ev.tag_ok = true →
        ∃ w2, download_and_tag cfg w tm ud aot ev = .ok w2 ∧
          download_and_tag cfg w2 tm ud aot ev2 = .ok w2) := by
  have hadd1 : ∀ (w : World) (tid : Nat),
      is_in_archive (add_to_archive false true w tid) tid = true := by
    intro w tid
    unfold is_in_archive
    by_cases h : w.archive_mem.contains (toString tid) = true
    · unfold add_to_archive
      simp only [Bool.not_true, Bool.or_false, Bool.false_eq_true, if_false]
      rw [if_pos (by simpa using h)]
      exact h
    · exact archive_roundtrip w tid (by simpa using h)
  have hadd2 : ∀ (w : World) (tid : Nat), is_in_archive w tid = true →
      add_to_archive false true w tid = w := by
    intro w tid h
    unfold add_to_archive
    simp only [Bool.not_true, Bool.or_false, Bool.false_eq_true, if_false]
    rw [if_pos (by simpa [is_in_archive] using h)]
  refine ⟨hadd1, hadd2, ?_, ?_, ?_, ?_, ?_⟩
  · intro w tid
    exact hadd2 _ tid (hadd1 w tid)
  · intro w tid h
    have hnew := add_to_archive_new w tid h
    refine ⟨hnew.2, ?_⟩
    unfold load_archive
    rw [hnew.2]
    exact contains_append_self _ _
  · intro cfg w tm ud aot ev hua hm
    unfold download_and_tag
    simp [hua, hm]
  · intro cfg w meta parse hp hs ev hua hm
    unfold download_track
    simp [hua, hm]
  · intro cfg w tm ud aot ev ev2 ff url hgate hren hdry hex hurl htmp hua hA hT
    obtain ⟨w2, h1, h2⟩ := dtag_success_archives cfg w tm ud aot ev ff url
      hgate hren hdry hex hurl htmp hua hA hT
    refine ⟨w2, h1, ?_⟩
    unfold download_and_tag
    simp [hua, h2]

/-- **C10**: with dry-run enabled (and the track not archive-skipped), a
materialization returns a world identical to the input except that the
downloaded counter is incremented and the computed destination directory is
recorded: no file is created, nothing is fetched, and the archive is
untouched; moreover the archive-adder itself is a no-op under dry-run. -/
theorem C10_dry_run_frame (cfg : DlConfig) (w : World) (tm : TrackMeta)
    (ud : UrlDict) (aot : AOTMeta) (ev : NetEvents) (ff : String)
    (hgate : (cfg.use_archive && is_in_archive w tm.id) = false)
    (hren : format_template_string (template_vars cfg tm (effectiveInfo aot) ud)
      cfg.output_template = some ff)
    (hdry : cfg.dry_run = true) :
    download_and_tag cfg w tm ud aot ev =
      .ok { w with
        output_dirs := addDistinct w.output_dirs (finalDirOf cfg ff)
        stats.tracks_downloaded := w.stats.tracks_downloaded + 1 } ∧
    (∀ (a : Bool) (w3 : World) (tid : Nat),
      add_to_archive true a w3 tid = w3) := by
  constructor
  · unfold download_and_tag
    simp only [hgate, Bool.false_eq_true, if_false]
    rw [hren]
    simp only [hdry, if_true]
    rfl
  · intro a w3 tid
    unfold add_to_archive
    simp

/-- **C3**: at requested quality 5 the negotiator reports `quality_met = true`
unconditionally, never consulting the descriptor; at 6/7/27 `quality_met` is
false iff the descriptor's restriction list contains an entry whose code is
`"FormatRestrictedByFormatAvailability"`; with quality not met and the
fallback flag off, an album expansion returns an empty job list and a
single-track download returns without materializing anything; with the
fallback flag on, the single-track flow hands exactly the returned
descriptor to the materializer. -/
theorem C3_quality_negotiation :
    (∀ (cfg : DlConfig) (fetched : Except ApiError UrlDict), cfg.quality = 5 →
        get_format cfg fetched = ("MP3", true, none, none)) ∧
    (∀ (cfg : DlConfig) (d : UrlDict), cfg.quality ∈ [6, 7, 27] →
        ((get_format cfg (.ok d)).2.1 = false ↔
          some QL_DOWNGRADE ∈ d.restrictions)) ∧
    (∀ (cfg : DlConfig) (w : World) (meta : AlbumMeta)
        (getTrackUrl : Nat → Except ApiError UrlDict) (headSize : String → Nat)
        (t0 : TrackMeta) (ts : List TrackMeta),
        meta.tracks = t0 :: ts → meta.streamable = true →
        (get_format cfg (getTrackUrl t0.id)).2.1 = false →
        cfg.downgrade_quality = false →
        get_album_tracks cfg w meta getTrackUrl headSize = .ok ([], w)) ∧
    (∀ (cfg : DlConfig) (w : World) (meta : TrackMeta) (p : UrlDict)
        (hs : String → Nat) (ev : NetEvents),
        cfg.use_archive = false → p.sample = false →
        ¬p.sampling_rate.getD 0 = 0 →
        (get_format cfg (.ok p)).2.1 = false →
        cfg.downgrade_quality = false →
        download_track cfg w meta (.ok p) true hs ev = .ok w) ∧
    (∀ (cfg : DlConfig) (w : World) (meta : TrackMeta) (p : UrlDict)
        (hs : String → Nat) (ev : NetEvents),
        cfg.use_archive = false → p.sample = false →
        ¬p.sampling_rate.getD 0 = 0 →
        cfg.downgrade_quality = true →
        download_track cfg w meta (.ok p) true hs ev =
          download_and_tag cfg w meta p (.trackM meta) ev) := by
  refine ⟨?_, ?_, ?_, ?_, ?_⟩
  · intro cfg fetched h5
    unfold get_format
    rw [if_pos h5]
  · intro cfg d hq
    have h5 : ¬cfg.quality = 5 := by
      simp only [List.mem_cons, List.not_mem_nil, or_false] at hq
      rcases hq with h | h | h <;> omega
    unfold get_format
    rw [if_neg h5]
    simp
  · intro cfg w meta getTrackUrl headSize t0 ts htr hstr hqm hdg
    unfold get_album_tracks
    rw [hstr]
    simp only [Bool.not_true, Bool.false_eq_true, if_false]
    by_cases halb : (cfg.albums_only &&
        (!(meta.info.release_type == some "album") ||
          meta.info.artist_name == some "Various Artists")) = true
    · rw [if_pos halb]
    · rw [if_neg halb]
      rw [if_neg (by rw [htr]; rintro ⟨h1, h2⟩; cases h2)]
      rw [htr]
      have h5 : ¬cfg.quality = 5 := by
        intro h5
        rw [show get_format cfg (getTrackUrl t0.id) = ("MP3", true, none, none)
          from by unfold get_format; rw [if_pos h5]] at hqm
        cases hqm
      rw [if_pos (by rw [hqm, hdg]; rfl)]
  · intro cfg w meta p hs ev hua hsm hsr hqm hdg
    unfold download_track
    simp only [hua, Bool.false_and, Bool.false_eq_true, if_false]
    rw [if_neg (by simp [hsm, hsr])]
    rw [if_pos (by rw [hqm, hdg]; rfl)]
  · intro cfg w meta p hs ev hua hsm hsr hdg
    unfold download_track
    simp only [hua, Bool.false_and, Bool.false_eq_true, if_false]
    rw [if_neg (by simp [hsm, hsr])]
    rw [if_neg (by rw [hdg]; simp)]
    simp

lemma mem_addToGroups : ∀ (gs : List (String × List Album)) (k : String)
    (a : Album) (p : String × List Album) (b : Album),
    p ∈ addToGroups gs k a → b ∈ p.2 →
    (∃ q ∈ gs, b ∈ q.2) ∨ b = a := by
  intro gs
  induction gs with
  | nil =>
    intro k a p b hp hb
    simp only [addToGroups, List.mem_singleton] at hp
    subst hp
    simp only [List.mem_singleton] at hb
    exact Or.inr hb
  | cons g rest ih =>
    intro k a p b hp hb
    obtain ⟨k2, as⟩ := g
    unfold addToGroups at hp
    by_cases hk : k2 = k
    · rw [if_pos hk] at hp
      rcases List.mem_cons.mp hp with rfl | hp
      · simp only [List.mem_append, List.mem_singleton] at hb
        rcases hb with hb | hb
        · exact Or.inl ⟨(k2, as), List.mem_cons_self _ _, hb⟩
        · exact Or.inr hb
      · exact Or.inl ⟨p, List.mem_cons_of_mem _ hp, hb⟩
    · rw [if_neg hk] at hp
      rcases List.mem_cons.mp hp with rfl | hp
      · exact Or.inl ⟨(k2, as), List.mem_cons_self _ _, hb⟩
      · rcases ih k a p b hp hb with ⟨q, hq, hbq⟩ | hba
        · exact Or.inl ⟨q, List.mem_cons_of_mem _ hq, hbq⟩
        · exact Or.inr hba

lemma mem_titleGroups_aux (req : String) :
    ∀ (items : List Album) (acc : List (String × List Album))
      (p : String × List Album) (b : Album),
      p ∈ items.foldl
        (fun gs item =>
          if item.artist_name ≠ req then gs
          else addToGroups gs (get_base_title item) item) acc →
      b ∈ p.2 →
      (∃ q ∈ acc, b ∈ q.2) ∨ (b ∈ items ∧ b.artist_name = req) := by
  intro items
  induction items with
  | nil =>
    intro acc p b hp hb
    exact Or.inl ⟨p, hp, hb⟩
  | cons i rest ih =>
    intro acc p b hp hb
    simp only [List.foldl_cons] at hp
    by_cases hart : i.artist_name ≠ req
    · rw [if_pos hart] at hp
      rcases ih acc p b hp hb with h | h
      · exact Or.inl h
      · exact Or.inr ⟨List.mem_cons_of_mem _ h.1, h.2⟩
    · rw [if_neg hart] at hp
      rcases ih (addToGroups acc (get_base_title i) i) p b hp hb with
        ⟨q, hq, hbq⟩ | h
      · rcases mem_addToGroups acc (get_base_title i) i q b hq hbq with h2 | h2
        · exact Or.inl h2
        · subst h2
          exact Or.inr ⟨List.mem_cons_self _ _, not_not.mp hart⟩
      · exact Or.inr ⟨List.mem_cons_of_mem _ h.1, h.2⟩

lemma mem_titleGroups (req : String) (items : List Album)
    (p : String × List Album) (b : Album)
    (hp : p ∈ titleGroups req items) (hb : b ∈ p.2) :
    b ∈ items ∧ b.artist_name = req := by
  unfold titleGroups at hp
  rcases mem_titleGroups_aux req items [] p b hp hb with ⟨q, hq, _⟩ | h
  · cases hq
  · exact h

lemma mem_of_head? {α : Type} : ∀ (l : List α) (a : α), l.head? = some a →
    a ∈ l := by
  intro l a h
  cases l with
  | nil => cases h
  | cons x t =>
    injection h with h
    exact h ▸ List.mem_cons_self _ _

lemma foldl_max_seed_le : ∀ (l : List Nat) (seed : Nat),
    seed ≤ l.foldl max seed := by
  intro l
  induction l with
  | nil => intro seed; exact le_refl seed
  | cons y t ih =>
    intro seed
    simp only [List.foldl_cons]
    exact le_trans (le_max_left seed y) (ih (max seed y))

lemma foldl_max_mem_le : ∀ (l : List Nat) (seed x : Nat), x ∈ l →
    x ≤ l.foldl max seed := by
  intro l
  induction l with
  | nil => intro seed x h; cases h
  | cons y t ih =>
    intro seed x h
    simp only [List.foldl_cons]
    rcases List.mem_cons.mp h with rfl | h
    · exact le_trans (le_max_right seed x) (foldl_max_seed_le t (max seed x))
    · exact ih (max seed y) x h

lemma natMaxOf_ge : ∀ (l : List Nat) (x : Nat), x ∈ l → x ≤ natMaxOf l := by
  intro l x h
  cases l with
  | nil => cases h
  | cons y t =>
    unfold natMaxOf
    rcases List.mem_cons.mp h with rfl | h
    · exact foldl_max_seed_le t x
    · exact foldl_max_mem_le t y x h

/-- Counterexample to C5 as stated: the one-album discography
`["X (Deluxe)"]` with `skip_extras = true`.  Its title group is non-empty,
yet the filter selects no representative at all (the only top-quality album
is an extras edition, so the candidate list is empty), contradicting "for
every non-empty group, selects exactly one representative". -/
theorem C5_counterexample :
    titleGroups "A"
        [{ title := "X (Deluxe)", version := none, artist_name := "A"
           maximum_bit_depth := 16, maximum_sampling_rate := mkRat 441 10 }] =
      [("x",
        [{ title := "X (Deluxe)", version := none, artist_name := "A"
           maximum_bit_depth := 16,
           maximum_sampling_rate := mkRat 441 10 }])] ∧
    smart_discography_filter
        [{ title := "X (Deluxe)", version := none, artist_name := "A"
           maximum_bit_depth := 16, maximum_sampling_rate := mkRat 441 10 }]
        true true = [] := by
  constructor
  · decide
  · decide

/-- **C5 (amended)**: the discography filter groups an artist's albums by
base title (trailing parenthetical suffix stripped, case-folded; albums
credited to a different artist than the first item's are excluded), and from
every group selects *at most one* representative — the first candidate
having the group's best bit depth, the best (or, with the space-saving flag,
the lowest) sampling rate among those, being a remaster whenever the group
contains one, and not being an extras edition when the extras flag is set; a
group whose top-quality albums are all excluded by the remaster or extras
rules yields no representative.  In particular `["X" @ 24/96,
"X (Deluxe)" @ 16/44.1]` with `skip_extras` yields exactly `["X"]`. -/
theorem C5_discography_filter :
    (smart_discography_filter
        [{ title := "X", version := none, artist_name := "A"
           maximum_bit_depth := 24, maximum_sampling_rate := 96 },
         { title := "X (Deluxe)", version := none, artist_name := "A"
           maximum_bit_depth := 16, maximum_sampling_rate := mkRat 441 10 }]
        true true =
      [{ title := "X", version := none, artist_name := "A"
         maximum_bit_depth := 24, maximum_sampling_rate := 96 }]) ∧
    (∀ (ss se : Bool) (first : Album) (rest : List Album) (a : Album),
        a ∈ smart_discography_filter (first :: rest) ss se →
        a ∈ first :: rest ∧ a.artist_name = first.artist_name) ∧
    (∀ (ss se : Bool) (first : Album) (rest : List Album) (a : Album),
        a ∈ smart_discography_filter (first :: rest) ss se →
        ∃ g ∈ titleGroups first.artist_name (first :: rest),
          (groupCandidates ss se g.2).head? = some a ∧
          a ∈ g.2 ∧
          a.maximum_bit_depth = natMaxOf (g.2.map (·.maximum_bit_depth)) ∧
          (∀ b ∈ g.2, b.maximum_bit_depth ≤ a.maximum_bit_depth) ∧
          a.maximum_sampling_rate =
            (if ss then
              ratMinOf ((g.2.filter fun x =>
                decide (x.maximum_bit_depth =
                  natMaxOf (g.2.map (·.maximum_bit_depth)))).map
                (·.maximum_sampling_rate))
            else
              ratMaxOf ((g.2.filter fun x =>
                decide (x.maximum_bit_depth =
                  natMaxOf (g.2.map (·.maximum_bit_depth)))).map
                (·.maximum_sampling_rate))) ∧
          (g.2.any is_type_remaster = true → is_type_remaster a = true) ∧
          (se = true → is_type_extra a = false)) ∧
    (∀ (ss se : Bool) (first : Album) (rest : List Album),
        (smart_discography_filter (first :: rest) ss se).length ≤
          (titleGroups first.artist_name (first :: rest)).length) := by
  refine ⟨by decide, ?_, ?_, ?_⟩
  · intro ss se first rest a ha
    unfold smart_discography_filter at ha
    obtain ⟨g, hg, hfg⟩ := List.mem_filterMap.mp ha
    have hac : a ∈ groupCandidates ss se g.2 := mem_of_head? _ a hfg
    have hag : a ∈ g.2 := by
      unfold groupCandidates at hac
      exact (List.mem_filter.mp hac).1
    exact mem_titleGroups first.artist_name (first :: rest) g a hg hag
  · intro ss se first rest a ha
    unfold smart_discography_filter at ha
    obtain ⟨g, hg, hfg⟩ := List.mem_filterMap.mp ha
    have hac : a ∈ groupCandidates ss se g.2 := mem_of_head? _ a hfg
    unfold groupCandidates at hac
    obtain ⟨hag, hpred⟩ := List.mem_filter.mp hac
    simp only [Bool.and_eq_true, decide_eq_true_eq, Bool.not_eq_true',
      Bool.and_eq_false_iff, Bool.not_eq_false] at hpred
    obtain ⟨⟨⟨hbit, hrate⟩, hrem⟩, hextra⟩ := hpred
    refine ⟨g, hg, hfg, hag, hbit, ?_, ?_, ?_, ?_⟩
    · intro b hb
      rw [hbit]
      exact natMaxOf_ge _ _ (List.mem_map.mpr ⟨b, hb, rfl⟩)
    · by_cases hss : ss = true <;> simp only [hss, if_true, if_false] <;>
        simpa [hss] using hrate
    · intro hany
      rcases hrem with h | h
      · rw [hany] at h; cases h
      · simpa using h
    · intro hse
      rcases hextra with h | h
      · rw [hse] at h; cases h
      · exact h
  · intro ss se first rest
    unfold smart_discography_filter
    exact List.length_filterMap_le _ _

lemma takeWhile_append_stop {α : Type} (p : α → Bool) :
    ∀ (l1 : List α) (x : α) (l2 : List α),
      (∀ c ∈ l1, p c = true) → p x = false →
      (l1 ++ x :: l2).takeWhile p = l1 := by
  intro l1
  induction l1 with
  | nil =>
    intro x l2 _ hx
    simp [List.takeWhile_cons, hx]
  | cons c t ih =>
    intro x l2 hl hx
    have hc : p c = true := hl c (List.mem_cons_self _ _)
    simp only [List.cons_append, List.takeWhile_cons, hc, if_true]
    rw [ih x l2 (fun d hd => hl d (List.mem_cons_of_mem _ hd)) hx]

lemma tryCond_block (key tv fv suf : List Char)
    (hkey : key ≠ []) (hkeyw : ∀ c ∈ key, isWordChar c = true)
    (htv : ∀ c ∈ tv, c ≠ '|') (hfv : ∀ c ∈ fv, c ≠ '\x7d') :
    tryCond ('%' :: '\x7b' :: '?' ::
        (key ++ ',' :: (tv ++ '|' :: (fv ++ '\x7d' :: suf)))) =
      some (String.mk key, tv, fv, suf) := by
  have h1 : (key ++ ',' :: (tv ++ '|' :: (fv ++ '\x7d' :: suf))).takeWhile
      isWordChar = key :=
    takeWhile_append_stop isWordChar key ',' _ hkeyw (by decide)
  have h2 : (key ++ ',' :: (tv ++ '|' :: (fv ++ '\x7d' :: suf))).drop
      key.length = ',' :: (tv ++ '|' :: (fv ++ '\x7d' :: suf)) :=
    List.drop_left key _
  have h3 : (tv ++ '|' :: (fv ++ '\x7d' :: suf)).takeWhile
      (fun c => c ≠ '|') = tv := by
    apply takeWhile_append_stop
    · intro c hc
      simpa using htv c hc
    · simp
  have h4 : (tv ++ '|' :: (fv ++ '\x7d' :: suf)).drop tv.length =
      '|' :: (fv ++ '\x7d' :: suf) := List.drop_left tv _
  have h5 : (fv ++ '\x7d' :: suf).takeWhile (fun c => c ≠ '\x7d') = fv := by
    apply takeWhile_append_stop
    · intro c hc
      simpa using hfv c hc
    · simp
  have h6 : (fv ++ '\x7d' :: suf).drop fv.length = '\x7d' :: suf :=
    List.drop_left fv _
  have hne : key.isEmpty = false := by
    cases key with
    | nil => cases hkey rfl
    | cons c t => rfl
  simp only [tryCond]
  rw [if_pos (by exact ⟨trivial, trivial, trivial⟩), h1, h2]
  rw [hne]
  simp only [Bool.false_eq_true, if_false, h3, h4, h5, h6]

lemma tryCond_none_of_ne (c : Char) (l : List Char) (h : c ≠ '%') :
    tryCond (c :: l) = none := by
  rcases l with _ | ⟨c2, _ | ⟨c3, rest⟩⟩
  · rfl
  · rfl
  · simp only [tryCond]
    rw [if_neg (by rintro ⟨rfl, -, -⟩; exact h rfl)]

lemma condSubAux_cons_none (vars : Vars) (c : Char) (t : List Char)
    (fuel : Nat) (h : tryCond (c :: t) = none) :
    condSubAux vars (fuel + 1) (c :: t) = c :: condSubAux vars fuel t := by
  simp only [condSubAux, h]

lemma condSubAux_nomatch (vars : Vars) :
    ∀ (l : List Char) (fuel : Nat), (∀ c ∈ l, c ≠ '%') →
      condSubAux vars fuel l = l := by
  intro l
  induction l with
  | nil => intro fuel _; cases fuel <;> rfl
  | cons c t ih =>
    intro fuel h
    cases fuel with
    | zero => rfl
    | succ n =>
      unfold condSubAux
      rw [tryCond_none_of_ne c t (h c (List.mem_cons_self _ _))]
      rw [ih n (fun d hd => h d (List.mem_cons_of_mem _ hd))]

lemma condSubAux_copy (vars : Vars) :
    ∀ (pre l : List Char) (fuel : Nat), (∀ c ∈ pre, c ≠ '%') →
      condSubAux vars (pre.length + fuel) (pre ++ l) =
        pre ++ condSubAux vars fuel l := by
  intro pre
  induction pre with
  | nil => intro l fuel _; simp
  | cons c t ih =>
    intro l fuel h
    have hl : (c :: t).length + fuel = (t.length + fuel) + 1 := by
      simp only [List.length_cons]
      omega
    rw [hl]
    show condSubAux vars (t.length + fuel + 1) (c :: (t ++ l)) = _
    rw [condSubAux_cons_none vars c (t ++ l) (t.length + fuel)
      (tryCond_none_of_ne c _ (h c (List.mem_cons_self _ _)))]
    rw [ih l fuel (fun d hd => h d (List.mem_cons_of_mem _ hd))]
    rw [List.cons_append]

lemma condSub_block (vars : Vars) (pre suf key tv fv : List Char)
    (hpre : ∀ c ∈ pre, c ≠ '%') (hsuf : ∀ c ∈ suf, c ≠ '%')
    (hkey : key ≠ []) (hkeyw : ∀ c ∈ key, isWordChar c = true)
    (htv : ∀ c ∈ tv, c ≠ '|') (hfv : ∀ c ∈ fv, c ≠ '\x7d') :
    condSub vars (String.mk (pre ++ '%' :: '\x7b' :: '?' ::
        (key ++ ',' :: (tv ++ '|' :: (fv ++ '\x7d' :: suf))))) =
      pre ++ ((if (vars (String.mk key)).elim false TVal.truthy then tv
               else fv) ++ suf) := by
  unfold condSub
  have hlen : (String.mk (pre ++ '%' :: '\x7b' :: '?' ::
      (key ++ ',' :: (tv ++ '|' :: (fv ++ '\x7d' :: suf))))).data =
      pre ++ '%' :: '\x7b' :: '?' ::
        (key ++ ',' :: (tv ++ '|' :: (fv ++ '\x7d' :: suf))) := rfl
  rw [hlen]
  have hlen2 : (pre ++ '%' :: '\x7b' :: '?' ::
      (key ++ ',' :: (tv ++ '|' :: (fv ++ '\x7d' :: suf)))).length =
      pre.length + (('\x7b' :: '?' ::
        (key ++ ',' :: (tv ++ '|' :: (fv ++ '\x7d' :: suf)))).length + 1) := by
    rw [List.length_append]
    simp
  rw [hlen2]
  rw [condSubAux_copy vars pre _ _ hpre]
  congr 1
  show condSubAux vars (_ + 1) ('%' :: _) = _
  unfold condSubAux
  rw [tryCond_block key tv fv suf hkey hkeyw htv hfv]
  show (if (vars (String.mk key)).elim false TVal.truthy then tv else fv) ++
      condSubAux vars _ suf = _
  rw [condSubAux_nomatch vars suf _ hsuf]

/-- **C8**: for every variable map, a conditional block
`%\x7b?flag,whenTrue|whenFalse\x7d` is replaced by its `whenTrue` literal
when the flag variable is truthy and by its `whenFalse` literal otherwise,
after which the plain `\x7bname\x7d` placeholders are substituted from the
map (`_format_template_string` is exactly that two-stage pipeline); in
particular the spec's template renders `"03 - Song"` with
`is_multidisc = 0` and `"Disc 02/03 - Song"` with `is_multidisc = 1`,
`media_number = "02"`. -/
theorem C8_template_rendering :
    (∀ (vars : Vars) (pre suf key tv fv : List Char),
        (∀ c ∈ pre, c ≠ '%') → (∀ c ∈ suf, c ≠ '%') →
        key ≠ [] → (∀ c ∈ key, isWordChar c = true) →
        (∀ c ∈ tv, c ≠ '|') → (∀ c ∈ fv, c ≠ '\x7d') →
        condSub vars (String.mk (pre ++ '%' :: '\x7b' :: '?' ::
            (key ++ ',' :: (tv ++ '|' :: (fv ++ '\x7d' :: suf))))) =
          pre ++ ((if (vars (String.mk key)).elim false TVal.truthy then tv
                   else fv) ++ suf)) ∧
    (∀ (vars : Vars) (t : String),
        format_template_string vars t =
          (pyFormatAux vars (condSub vars t).length (condSub vars t)).map
            String.mk) ∧
    format_template_string
        (fun k => if k = "is_multidisc" then some (.int 0)
          else if k = "tracknumber" then some (.str "03")
          else if k = "tracktitle" then some (.str "Song") else none)
        "%\x7b?is_multidisc,Disc \x7bmedia_number\x7d/|\x7d\x7btracknumber\x7d - \x7btracktitle\x7d" =
      some "03 - Song" ∧
    format_template_string
        (fun k => if k = "is_multidisc" then some (.int 1)
          else if k = "media_number" then some (.str "02")
          else if k = "tracknumber" then some (.str "03")
          else if k = "tracktitle" then some (.str "Song") else none)
        "%\x7b?is_multidisc,Disc \x7bmedia_number\x7d/|\x7d\x7btracknumber\x7d - \x7btracktitle\x7d" =
      some "Disc 02/03 - Song" := by
  refine ⟨?_, fun vars t => rfl, by decide, by decide⟩
  intro vars pre suf key tv fv hpre hsuf hkey hkeyw htv hfv
  exact condSub_block vars pre suf key tv fv hpre hsuf hkey hkeyw htv hfv

/-- Witness for C8: the single-block template `"A %\x7b?flag,yes|no\x7d!"`
with a truthy flag renders the `whenTrue` branch. -/
theorem C8_template_rendering_witness :
    condSub (fun k => if k = "flag" then some (TVal.int 1) else none)
        "A %\x7b?flag,yes|no\x7d!" = "A yes!".data := by
  have heq : ("A %\x7b?flag,yes|no\x7d!" : String) =
      String.mk ("A ".data ++ '%' :: '\x7b' :: '?' ::
        ("flag".data ++ ',' :: ("yes".data ++ '|' ::
          ("no".data ++ '\x7d' :: "!".data)))) := by decide
  rw [heq]
  exact (C8_template_rendering.1
    (fun k => if k = "flag" then some (TVal.int 1) else none)
    "A ".data "!".data "flag".data "yes".data "no".data
    (by decide) (by decide) (by decide) (by decide) (by decide)
    (by decide)).trans (by decide)

/-- Witness for C3: a quality-6 request whose descriptor carries the
downgrade restriction and no fallback: the single-track flow returns with
the world untouched. -/
theorem C3_quality_negotiation_witness :
    download_track (mkCfg 6 false false false) wEmpty tmW (.ok udRestr) true
      (fun _ => 0) { cover_ok := true, booklet_ok := true, audio_ok := true
                     tag_ok := true } = .ok wEmpty :=
  (C3_quality_negotiation).2.2.2.1 (mkCfg 6 false false false) wEmpty tmW
    udRestr (fun _ => 0)
    { cover_ok := true, booklet_ok := true, audio_ok := true, tag_ok := true }
    rfl rfl (by decide) (by decide) rfl

/-- Witness for C5: the spec example's selected album is one of the input
albums and carries the requested artist. -/
theorem C5_discography_filter_witness :
    ({ title := "X", version := none, artist_name := "A"
       maximum_bit_depth := 24, maximum_sampling_rate := 96 } : Album) ∈
      [{ title := "X", version := none, artist_name := "A"
         maximum_bit_depth := 24, maximum_sampling_rate := 96 },
       { title := "X (Deluxe)", version := none, artist_name := "A"
         maximum_bit_depth := 16, maximum_sampling_rate := mkRat 441 10 }] ∧
    ({ title := "X", version := none, artist_name := "A"
       maximum_bit_depth := 24, maximum_sampling_rate := 96 } : Album).artist_name =
      ({ title := "X", version := none, artist_name := "A"
         maximum_bit_depth := 24, maximum_sampling_rate := 96 } : Album).artist_name :=
  (C5_discography_filter).2.1 true true
    { title := "X", version := none, artist_name := "A"
      maximum_bit_depth := 24, maximum_sampling_rate := 96 }
    [{ title := "X (Deluxe)", version := none, artist_name := "A"
       maximum_bit_depth := 16, maximum_sampling_rate := mkRat 441 10 }]
    { title := "X", version := none, artist_name := "A"
      maximum_bit_depth := 24, maximum_sampling_rate := 96 }
    (by decide)

/-- Witness for C6: with the archive on but empty, a failed byte stream on
the concrete fixture leaves no temporary file, counts one failure, and
leaves the archive and the downloaded/byte counters at zero. -/
theorem C6_temp_file_and_failure_isolation_witness :
    ∃ w2, download_and_tag (mkCfg 6 true false true) wEmpty tmW udW
        (.trackM tmW)
        { cover_ok := true, booklet_ok := true, audio_ok := false
          tag_ok := true } = .ok w2 ∧
      w2.files.contains
        (pathJoin (finalDirOf (mkCfg 6 true false true) "Song.flac")
          (tempNameOf tmW.id)) = false ∧
      w2.stats.tracks_failed = wEmpty.stats.tracks_failed + 1 ∧
      w2.stats.tracks_downloaded = wEmpty.stats.tracks_downloaded ∧
      w2.stats.total_size_downloaded = wEmpty.stats.total_size_downloaded ∧
      w2.archive_mem = wEmpty.archive_mem ∧
      w2.archive_file = wEmpty.archive_file :=
  (C6_temp_file_and_failure_isolation (mkCfg 6 true false true) wEmpty tmW
    udW (.trackM tmW)
    { cover_ok := true, booklet_ok := true, audio_ok := false, tag_ok := true }
    "Song.flac" "http://u" (by decide) (by decide) rfl (by decide) rfl
    (by decide)).1 rfl

/-- Witness for C7: adding id 7 to an empty archive makes the membership
check true. -/
theorem C7_archive_dedup_witness :
    is_in_archive (add_to_archive false true wEmpty 7) 7 = true :=
  (C7_archive_dedup).1 wEmpty 7

/-- Witness for C10: materializing the fixture track under dry run only
bumps the downloaded counter and records the destination directory. -/
theorem C10_dry_run_frame_witness :
    download_and_tag (mkCfg 6 true true false) wEmpty tmW udW (.trackM tmW)
        { cover_ok := true, booklet_ok := true, audio_ok := true
          tag_ok := true } =
      .ok { wEmpty with
        output_dirs := addDistinct wEmpty.output_dirs
          (finalDirOf (mkCfg 6 true true false) "Song.flac")
        stats.tracks_downloaded := wEmpty.stats.tracks_downloaded + 1 } :=
  (C10_dry_run_frame (mkCfg 6 true true false) wEmpty tmW udW (.trackM tmW)
    { cover_ok := true, booklet_ok := true, audio_ok := true, tag_ok := true }
    "Song.flac" (by decide) (by decide) rfl).1

end QobuzDL
